import Mathlib

/-!
logo-ls: the comparator family and the formatters of `internal/dir/formatterStuff.go`

A shallow embedding of `mainSort`, `lessFuncGenerator`, `getIndicator` and
`getSizeInFormate`.

Modelling conventions
* A Go `string` is a Lean `String`.  Go compares strings bytewise; on valid UTF-8 this is
  the code-point lexicographic order, which is the order `<` of `String`.
* `strings.ToLower` maps every rune of its argument through `unicode.ToLower`.  The rune
  map is the parameter `lower : Char → Char` of the definitions below, so every theorem
  holds for whatever case table is plugged in; `Char.toLower` is the ASCII instance used
  for the worked examples.
* The closure `d.less` reads `d.files[i]` and `d.files[j]`; an index outside the slice is
  a run-time failure, rendered here as `none`.
-/

namespace LogoLs

/-! ## Library functions used by the source -/

/-- Go `a < b` on strings: the lexicographic order of the contents. -/
def strLess (a b : String) : Bool :=
  decide (a.data < b.data)

/-- Go `strings.ToLower`: every rune is mapped through the rune-level case map. -/
def ToLower (lower : Char → Char) (s : String) : String :=
  ⟨s.data.map lower⟩

/-- Go `strings.TrimPrefix s p`: `s` without the leading `p` when `s` starts with `p`,
otherwise `s` itself. -/
def trimPrefixStr (s p : String) : String :=
  if p.data.isPrefixOf s.data then ⟨s.data.drop p.data.length⟩ else s

/-- Go `strings.Contains s sub`. -/
def Contains (s sub : String) : Bool :=
  s.data.tails.any fun t => sub.data.isPrefixOf t

/-- Width of the Go type `int` on the 64-bit targets. -/
def intSize : Nat := 64

/-- Base-10 value of a list of ASCII digits, most significant first. -/
def digitsValue (ds : List Char) : Nat :=
  ds.foldl (fun acc c => 10 * acc + (c.toNat - 48)) 0

/-- Go `strconv.Atoi`: an optional sign followed by one or more ASCII digits; `none` for a
syntax error (empty, or a character that is not a digit) and for a value outside the
range of `int`. -/
def Atoi (s : String) : Option Int :=
  let body : Bool × List Char :=
    match s.data with
    | '-' :: r => (true, r)
    | '+' :: r => (false, r)
    | r => (false, r)
  if body.2 = [] ∨ body.2.all Char.isDigit = false then none
  else
    let n := digitsValue body.2
    if body.1 then (if n ≤ 2 ^ (intSize - 1) then some (-(n : Int)) else none)
    else (if n < 2 ^ (intSize - 1) then some (n : Int) else none)

/-- The call `int_re.ReplaceAll(name, [])` with `int_re = \D+`: every run of
characters other than `0`-`9` is deleted. -/
def int_re_ReplaceAll (name : String) : String :=
  ⟨name.data.filter Char.isDigit⟩

/-- The call `str_re.ReplaceAll(name, [])` with `str_re = \d+`: every run of the
characters `0`-`9` is deleted. -/
def str_re_ReplaceAll (name : String) : String :=
  ⟨name.data.filter fun c => !c.isDigit⟩

/-- An instant as held by a Go `time.Time` without monotonic clock reading (file
modification times carry none): seconds and nanoseconds within the second. -/
structure Time where
  sec : Int
  nsec : Nat
  deriving DecidableEq, Repr

/-- Go `Time.After` on wall-clock instants. -/
def Time.After (t u : Time) : Bool :=
  decide (t.sec > u.sec) || (decide (t.sec = u.sec) && decide (t.nsec > u.nsec))

/-! ## Data model -/

/-- Modelled from the spec: the record type `file` of package `dir`, declared outside
`formatterStuff.go`; the fields are the ones the comparators read (`name`, `ext`, `size`,
`modTime`, `indicator`). -/
structure file where
  name : String
  ext : String
  indicator : String
  size : Int
  modTime : Time
  deriving DecidableEq, Repr

/-- The flag vector and the flag constants of package `api`, whose values are declared
outside `formatterStuff.go`: they are parameters of the development. -/
structure Api where
  FlagVector : Nat
  Flag_alpha : Nat
  Flag_S : Nat
  Flag_t : Nat
  Flag_X : Nat
  Flag_v : Nat
  Flag_h : Nat
  deriving DecidableEq, Repr

/-! ## `mainSort` -/

/-- Source `mainSort`: both arguments lose one leading `.` unless they are `.` or `..`,
then the lowercase forms are compared. -/
def mainSort (lower : Char → Char) (a b : String) : Bool :=
  let a := if a = "." ∨ a = ".." then a else trimPrefixStr a "."
  let b := if b = "." ∨ b = ".." then b else trimPrefixStr b "."
  strLess (ToLower lower a) (ToLower lower b)

/-! ## The closures installed by `lessFuncGenerator`, on two records -/

/-- Body of the `Flag_alpha` closure. -/
def less_alpha (lower : Char → Char) (fi fj : file) : Bool :=
  mainSort lower (fi.name ++ fi.ext) (fj.name ++ fj.ext)

/-- Body of the `Flag_S` closure. -/
def less_S (lower : Char → Char) (fi fj : file) : Bool :=
  if fi.size > fj.size then true
  else if fi.size = fj.size then
    mainSort lower (fi.name ++ fi.ext) (fj.name ++ fj.ext)
  else false

/-- Body of the `Flag_t` closure. -/
def less_t (fi fj : file) : Bool :=
  fi.modTime.After fj.modTime

/-- Body of the `Flag_X` closure. -/
def less_X (lower : Char → Char) (fi fj : file) : Bool :=
  if mainSort lower fi.ext fj.ext then true
  else if ToLower lower fi.ext = ToLower lower fj.ext then
    mainSort lower (fi.name ++ fi.ext) (fj.name ++ fj.ext)
  else false

/-- Body of the `Flag_v` closure. -/
def less_v (fi fj : file) : Bool :=
  let dirI := decide (fi.indicator = "/")
  let dirJ := decide (fj.indicator = "/")
  if dirI && dirJ then
    if fi.name = fj.name then strLess fi.ext fj.ext
    else
      match Atoi (int_re_ReplaceAll fi.name), Atoi (int_re_ReplaceAll fj.name) with
      | some intI, some intJ =>
        if str_re_ReplaceAll fi.name ≠ str_re_ReplaceAll fj.name then
          strLess fi.name fj.name
        else decide (intI < intJ)
      | _, _ => strLess fi.name fj.name
  else if dirI && !dirJ then true
  else if !dirI && dirJ then false
  else
    let exI := decide (fi.indicator = "*")
    let exJ := decide (fj.indicator = "*")
    if exI && exJ then strLess fi.name fj.name
    else if exI && !exJ then false
    else if !exI && exJ then true
    else if Contains fi.ext "->" || Contains fj.ext "->" then strLess fi.name fj.name
    else if fi.ext ≠ fj.ext then strLess fi.ext fj.ext
    else
      match Atoi (int_re_ReplaceAll fi.name), Atoi (int_re_ReplaceAll fj.name) with
      | some intI, some intJ =>
        if str_re_ReplaceAll fi.name ≠ str_re_ReplaceAll fj.name then
          strLess fi.name fj.name
        else decide (intI < intJ)
      | _, _ => strLess fi.name fj.name

/-! ## `lessFuncGenerator` -/

/-- A closure body applied to `d.files[i]` and `d.files[j]`; `none` when an index is
outside the slice. -/
def onFiles (body : file → file → Bool) (files : List file) (i j : Nat) : Option Bool :=
  match files[i]?, files[j]? with
  | some fi, some fj => some (body fi fj)
  | _, _ => none

/-- Source `lessFuncGenerator`: the closure stored in `d.less`, as a function of the
current contents of `d.files` and the two positions. -/
def lessFuncGenerator (api : Api) (lower : Char → Char) :
    List file → Nat → Nat → Option Bool :=
  if (api.FlagVector &&& api.Flag_alpha) > 0 then onFiles (less_alpha lower)
  else if (api.FlagVector &&& api.Flag_S) > 0 then onFiles (less_S lower)
  else if (api.FlagVector &&& api.Flag_t) > 0 then onFiles less_t
  else if (api.FlagVector &&& api.Flag_X) > 0 then onFiles (less_X lower)
  else if (api.FlagVector &&& api.Flag_v) > 0 then onFiles less_v
  else fun _ i j => some (decide (i < j))

/-! ## Order-theoretic vocabulary of the claims -/

/-- A comparator on the positions `0 .. n-1` is a strict weak ordering: it answers on
every pair of positions and is irreflexive, asymmetric and transitive, with a transitive
incomparability relation. -/
structure StrictWeakOrder (n : Nat) (less : Nat → Nat → Option Bool) : Prop where
  irrefl : ∀ i, i < n → less i i = some false
  asymm : ∀ i j, i < n → j < n → less i j = some true → less j i = some false
  trans : ∀ i j k, i < n → j < n → k < n →
    less i j = some true → less j k = some true → less i k = some true
  incomp_trans : ∀ i j k, i < n → j < n → k < n →
    less i j = some false → less j i = some false →
    less j k = some false → less k j = some false →
    less i k = some false ∧ less k i = some false

/-- The same four laws for a closure body, on the records satisfying `P`. -/
structure StrictWeakOn (P : file → Prop) (r : file → file → Bool) : Prop where
  irrefl : ∀ a, P a → r a a = false
  asymm : ∀ a b, P a → P b → r a b = true → r b a = false
  trans : ∀ a b c, P a → P b → P c → r a b = true → r b c = true → r a c = true
  incomp_trans : ∀ a b c, P a → P b → P c →
    r a b = false → r b a = false → r b c = false → r c b = false →
    r a c = false ∧ r c a = false

/-- The string whose lowercase form `mainSort` compares: the argument after the two
`switch` statements of the source. -/
def stripDot (s : String) : String :=
  if s = "." ∨ s = ".." then s else trimPrefixStr s "."

/-- The sort key of `mainSort`. -/
def sortKey (lower : Char → Char) (s : String) : String :=
  ToLower lower (stripDot s)

/-- The shape the data model gives an extension: empty, or starting with the separator
`.`. -/
def extShape (e : String) : Prop :=
  e = "" ∨ e.data.head? = some '.'

instance extShape_decidable : DecidablePred extShape := fun e => by
  unfold extShape
  infer_instance

/-- The numeric-aware comparison of two names: the block that the `Flag_v` closure
contains twice, once for two directories and once for two plain files. -/
def numericLess (ni nj : String) : Bool :=
  match Atoi (int_re_ReplaceAll ni), Atoi (int_re_ReplaceAll nj) with
  | some intI, some intJ =>
    if str_re_ReplaceAll ni ≠ str_re_ReplaceAll nj then strLess ni nj
    else decide (intI < intJ)
  | _, _ => strLess ni nj

/-- The key that orders digit-free, arrow-free records like the `Flag_v` closure does:
the group (directories, plain entries, executables), then the two strings the group
compares. -/
def vKey (f : file) : Lex (Nat × Lex (String × String)) :=
  if f.indicator = "/" then toLex (0, toLex (f.name, f.ext))
  else if f.indicator = "*" then toLex (2, toLex (f.name, ""))
  else toLex (1, toLex (f.ext, f.name))

/-! ## Vocabulary of the claims about `mainSort` and the dispatch -/

/-- A string without its first character when that character is `.`. -/
def withoutLeadingDot (s : String) : String :=
  match s.data with
  | '.' :: r => ⟨r⟩
  | _ => s

/-- The normal form `norm` of the specification of `mainSort`: the lowercase form of the
string with one leading `.` removed, where `.` and `..` keep their dots. -/
def norm (lower : Char → Char) (s : String) : String :=
  ToLower lower (if s = "." ∨ s = ".." then s else withoutLeadingDot s)

/-- The positions `order`, read from left to right, are in strictly ascending order of the
comparator: each one sorts before all the later ones. -/
def OrderedAs (less : Nat → Nat → Option Bool) (order : List Nat) : Prop :=
  order.Pairwise fun i j => less i j = some true

instance OrderedAs_decidable (less : Nat → Nat → Option Bool) (order : List Nat) :
    Decidable (OrderedAs less order) := by
  unfold OrderedAs
  infer_instance

/-- The sort modes of the specification. -/
inductive SortMode where
  | Default
  | Alphabetical
  | SizeDescending
  | TimeDescending
  | ExtensionAlphabetical
  | NaturalVersion
  deriving DecidableEq, Repr

/-- The flag that requests a mode; `Default` is requested by no flag. -/
def SortMode.flag (api : Api) : SortMode → Option Nat
  | .Default => none
  | .Alphabetical => some api.Flag_alpha
  | .SizeDescending => some api.Flag_S
  | .TimeDescending => some api.Flag_t
  | .ExtensionAlphabetical => some api.Flag_X
  | .NaturalVersion => some api.Flag_v

/-- A mode is requested when its flag has a bit in common with the flag vector. -/
def SortMode.requested (api : Api) (m : SortMode) : Bool :=
  match m.flag api with
  | some f => decide ((api.FlagVector &&& f) > 0)
  | none => false

/-- The precedence of the specification: alphabetical > size > time > extension >
natural. -/
def precedence : List SortMode :=
  [.Alphabetical, .SizeDescending, .TimeDescending, .ExtensionAlphabetical, .NaturalVersion]

/-- The mode that governs a listing: the first requested mode in precedence order,
`Default` when none is requested. -/
def governingMode (api : Api) : SortMode :=
  (precedence.find? (SortMode.requested api)).getD .Default

/-- The comparator of each sort mode. -/
def comparatorOf (lower : Char → Char) : SortMode → List file → Nat → Nat → Option Bool
  | .Default => fun _ i j => some (decide (i < j))
  | .Alphabetical => onFiles (less_alpha lower)
  | .SizeDescending => onFiles (less_S lower)
  | .TimeDescending => onFiles less_t
  | .ExtensionAlphabetical => onFiles (less_X lower)
  | .NaturalVersion => onFiles less_v

/-! ## The sorting routines of Go's package `sort` that the default mode is checked
against -/

/-- Go `sort.IsSorted`: no position `i > 0` has `Less(i, i-1)`. -/
def IsSorted (n : Nat) (less : Nat → Nat → Option Bool) : Bool :=
  (List.range' 1 (n - 1)).all fun i => less i (i - 1) == some false

/-- The method `Swap(i, j)` of the sorted slice. -/
def swap (fs : List file) (i j : Nat) : List file :=
  match fs[i]?, fs[j]? with
  | some a, some b => (fs.set i b).set j a
  | _, _ => fs

/-- Inner loop of Go `insertionSort`:
`for j := i; j > a && data.Less(j, j-1); j-- { data.Swap(j, j-1) }`; the comparator reads
the current contents of the slice. -/
def insertionInner (less : List file → Nat → Nat → Option Bool) (a : Nat) :
    Nat → List file → List file
  | 0, fs => fs
  | j + 1, fs =>
    if j + 1 > a ∧ less fs (j + 1) j = some true then
      insertionInner less a j (swap fs (j + 1) j)
    else fs

/-- Go `insertionSort(data, a, b)`: `for i := a + 1; i < b; i++` runs the inner loop. -/
def insertionSort (less : List file → Nat → Nat → Option Bool) (a b : Nat)
    (fs : List file) : List file :=
  (List.range' (a + 1) (b - (a + 1))).foldl (fun cur i => insertionInner less a i cur) fs

/-! ## Vocabulary of the claims about the natural version mode -/

/-- The `switch` of `lessFuncGenerator` reaches the `Flag_v` case: the four earlier tests
fail and the test of `Flag_v` succeeds. -/
def reachesFlag_v (api : Api) : Prop :=
  (api.FlagVector &&& api.Flag_alpha) = 0 ∧ (api.FlagVector &&& api.Flag_S) = 0 ∧
  (api.FlagVector &&& api.Flag_t) = 0 ∧ (api.FlagVector &&& api.Flag_X) = 0 ∧
  (api.FlagVector &&& api.Flag_v) > 0

instance reachesFlag_v_decidable (api : Api) : Decidable (reachesFlag_v api) := by
  unfold reachesFlag_v
  infer_instance

/-- The digit run of the specification as a number: the digits `0`-`9` of the name, in
order, read as one base-10 numeral (least significant digit first for `Nat.ofDigits`). -/
def digitRunValue (name : String) : Nat :=
  Nat.ofDigits 10 (((name.data.filter Char.isDigit).reverse).map fun c => c.toNat - 48)

/-! ## `getIndicator` -/

/-- Go `os.ModeDir`. -/
def ModeDir : Nat := 2 ^ 31

/-- Go `os.ModeSymlink`. -/
def ModeSymlink : Nat := 2 ^ 27

/-- Go `os.ModeNamedPipe`. -/
def ModeNamedPipe : Nat := 2 ^ 25

/-- Go `os.ModeSocket`. -/
def ModeSocket : Nat := 2 ^ 24

/-- Go `os.ModeIrregular`. -/
def ModeIrregular : Nat := 2 ^ 19

/-- Source `getIndicator`; the named result `i` starts as the empty string, and the last
test masks with the decimal literal `1000000` of the source. -/
def getIndicator (modebit : Nat) : String :=
  if (modebit &&& ModeDir) > 0 then "/"
  else if (modebit &&& ModeNamedPipe) > 0 then "|"
  else if (modebit &&& ModeSymlink) > 0 then ""
  else if (modebit &&& ModeSocket) > 0 then "="
  else if (modebit &&& 1000000) > 0 then "*"
  else ""

/-! ## `getSizeInFormate` -/

/-- The value an `int64` holds after an operation whose exact result is `x`. -/
def wrapInt64 (x : Int) : Int :=
  (x + 2 ^ 63) % 2 ^ 64 - 2 ^ 63

/-- The loop `for n := b / unit; n >= unit; n /= unit { div *= unit; exp++ }` of
`getSizeInFormate` from the state `n`, `div`, `exp`, with at most `fuel` evaluations of
the loop condition; the result is the final `div` and `exp`, `none` when the fuel is
used up. -/
def unitLoop : Nat → Int → Int → Nat → Option (Int × Nat)
  | 0, _, _, _ => none
  | fuel + 1, n, div, exp =>
    if n ≥ 1024 then unitLoop fuel (Int.tdiv n 1024) (wrapInt64 (div * 1024)) (exp + 1)
    else some (div, exp)

/-- The two shapes of the text `getSizeInFormate` returns: `decimal b` is
`fmt.Sprintf("%d", b)` and `scaled b div c` is
`fmt.Sprintf("%.1f%c", float64(b)/float64(div), c)`; the floating-point quotient is kept
symbolic. -/
inductive SizeText where
  | decimal (b : Int)
  | scaled (b div : Int) (c : Char)
  deriving DecidableEq, Repr

/-- Source `getSizeInFormate`; `none` stands for a run-time failure (index outside
`"KMGTPE"`) or a loop that has not ended after 64 evaluations of its condition. -/
def getSizeInFormate (api : Api) (b : Int) : Option SizeText :=
  if (api.FlagVector &&& api.Flag_h) = 0 then some (SizeText.decimal b)
  else if b < 1024 then some (SizeText.decimal b)
  else
    match unitLoop 64 (Int.tdiv b 1024) 1024 0 with
    | none => none
    | some (div, exp) =>
      match ("KMGTPE").data[exp]? with
      | none => none
      | some c => some (SizeText.scaled b div c)

/-! ## Records and flag assignments of the worked examples -/

/-- A flag assignment with one bit per flag (the constants of package `api` are not part
of `formatterStuff.go`); `flagVector` is the value of `api.FlagVector`. -/
def exampleApi (flagVector : Nat) : Api :=
  { FlagVector := flagVector, Flag_alpha := 1, Flag_S := 2, Flag_t := 4, Flag_X := 8,
    Flag_v := 16, Flag_h := 32 }

/-- A record with the given name, extension and indicator, of size 0. -/
def mkFile (name ext indicator : String) : file :=
  { name := name, ext := ext, indicator := indicator, size := 0, modTime := ⟨0, 0⟩ }

/-- A record with the given name, extension and size, with empty indicator. -/
def mkSized (name ext : String) (size : Int) : file :=
  { name := name, ext := ext, indicator := "", size := size, modTime := ⟨0, 0⟩ }

/-! ## Generic facts -/

theorem onFiles_eq_some {body : file → file → Bool} {files : List file} {i j : Nat}
    (hi : i < files.length) (hj : j < files.length) :
    onFiles body files i j = some (body (files.get ⟨i, hi⟩) (files.get ⟨j, hj⟩)) := by
  simp [onFiles, List.getElem?_eq_getElem hi, List.getElem?_eq_getElem hj]

/-- A closure body that is a strict weak ordering on the records of `files` gives a
strict weak ordering of the positions of `files`. -/
theorem StrictWeakOn.onFiles {files : List file} {r : file → file → Bool}
    (h : StrictWeakOn (fun a => a ∈ files) r) :
    StrictWeakOrder files.length (onFiles r files) := by
  have mem : ∀ i (hi : i < files.length), files.get ⟨i, hi⟩ ∈ files :=
    fun i hi => List.get_mem _ _ _
  constructor
  · intro i hi
    rw [onFiles_eq_some hi hi, h.irrefl _ (mem i hi)]
  · intro i j hi hj hij
    rw [onFiles_eq_some hi hj] at hij
    rw [onFiles_eq_some hj hi, h.asymm _ _ (mem i hi) (mem j hj) (Option.some.inj hij)]
  · intro i j k hi hj hk hij hjk
    rw [onFiles_eq_some hi hj] at hij
    rw [onFiles_eq_some hj hk] at hjk
    rw [onFiles_eq_some hi hk, h.trans _ _ _ (mem i hi) (mem j hj) (mem k hk)
      (Option.some.inj hij) (Option.some.inj hjk)]
  · intro i j k hi hj hk hij hji hjk hkj
    rw [onFiles_eq_some hi hj] at hij
    rw [onFiles_eq_some hj hi] at hji
    rw [onFiles_eq_some hj hk] at hjk
    rw [onFiles_eq_some hk hj] at hkj
    have := h.incomp_trans _ _ _ (mem i hi) (mem j hj) (mem k hk)
      (Option.some.inj hij) (Option.some.inj hji) (Option.some.inj hjk) (Option.some.inj hkj)
    rw [onFiles_eq_some hi hk, onFiles_eq_some hk hi, this.1, this.2]
    exact ⟨rfl, rfl⟩

/-- A closure body that compares a key in a linear order is a strict weak ordering. -/
theorem strictWeakOn_of_key {β : Type} [LinearOrder β] {P : file → Prop}
    {r : file → file → Bool} (key : file → β)
    (h : ∀ a b, P a → P b → (r a b = true ↔ key a < key b)) : StrictWeakOn P r := by
  have hf : ∀ a b, P a → P b → (r a b = false ↔ key b ≤ key a) := by
    intro a b ha hb
    rw [← not_lt, ← h a b ha hb, Bool.not_eq_true]
  constructor
  · intro a ha
    rw [hf a a ha ha]
  · intro a b ha hb hab
    rw [hf b a hb ha]
    exact le_of_lt ((h a b ha hb).1 hab)
  · intro a b c ha hb hc hab hbc
    exact (h a c ha hc).2 (lt_trans ((h a b ha hb).1 hab) ((h b c hb hc).1 hbc))
  · intro a b c ha hb hc hab hba hbc hcb
    rw [hf a c ha hc, hf c a hc ha]
    have e1 : key a = key b := le_antisymm ((hf b a hb ha).1 hba) ((hf a b ha hb).1 hab)
    have e2 : key b = key c := le_antisymm ((hf c b hc hb).1 hcb) ((hf b c hb hc).1 hbc)
    rw [e1, e2]
    exact ⟨le_refl _, le_refl _⟩

theorem strLess_iff (a b : String) : strLess a b = true ↔ a < b := by
  simp [strLess, String.lt_iff_toList_lt]

theorem strLess_eq (a b : String) : strLess a b = decide (a < b) := by
  rw [Bool.eq_iff_iff, strLess_iff, decide_eq_true_eq]

theorem mainSort_eq (lower : Char → Char) (a b : String) :
    mainSort lower a b = decide (sortKey lower a < sortKey lower b) :=
  strLess_eq _ _

theorem eq_dot_iff (s : String) : s = "." ↔ s.data = ['.'] := by
  rw [String.ext_iff]

theorem eq_dotdot_iff (s : String) : s = ".." ↔ s.data = ['.', '.'] := by
  rw [String.ext_iff]

/-- A string that does not start with `.` is its own `stripDot`. -/
theorem stripDot_of_head_ne (s : String) (h : s.data.head? ≠ some '.') :
    stripDot s = s := by
  unfold stripDot trimPrefixStr
  split
  · rfl
  · rcases hs : s.data with _ | ⟨c, r⟩
    · simp [hs]
    · have hc : c ≠ '.' := by simpa [hs] using h
      have : (".").data = ['.'] := rfl
      simp [this, hc, Ne.symm hc]

/-- The leading `.` of a string other than `.` and `..` is removed by `stripDot`. -/
theorem stripDot_dot_cons (r : List Char) (h1 : r ≠ []) (h2 : r ≠ ['.']) :
    stripDot ⟨'.' :: r⟩ = ⟨r⟩ := by
  unfold stripDot trimPrefixStr
  have : (".").data = ['.'] := rfl
  simp [eq_dot_iff, eq_dotdot_iff, h1, h2, this]

theorem sortKey_data (lower : Char → Char) (s : String) :
    (sortKey lower s).data = (stripDot s).data.map lower := rfl

theorem ToLower_data (lower : Char → Char) (s : String) :
    (ToLower lower s).data = s.data.map lower := rfl

/-! ## Alphabetical, size and time modes -/

theorem less_alpha_strictWeak (lower : Char → Char) (P : file → Prop) :
    StrictWeakOn P (less_alpha lower) :=
  strictWeakOn_of_key (fun f => sortKey lower (f.name ++ f.ext)) (by
    intro a b _ _
    simp [less_alpha, mainSort_eq])

theorem less_S_strictWeak (lower : Char → Char) (P : file → Prop) :
    StrictWeakOn P (less_S lower) :=
  strictWeakOn_of_key (fun f => toLex (-f.size, sortKey lower (f.name ++ f.ext))) (by
    intro a b _ _
    rw [Prod.Lex.lt_iff]
    simp only [less_S, mainSort_eq, neg_lt_neg_iff, neg_inj]
    by_cases h1 : a.size > b.size
    · simp [h1]
    · by_cases h2 : a.size = b.size
      · simp [h2]
      · have h3 : ¬ b.size < a.size := h1
        have h4 : ¬ b.size = a.size := fun h => h2 h.symm
        simp [h1, h2, h3, h4])

theorem less_t_strictWeak (P : file → Prop) : StrictWeakOn P less_t :=
  strictWeakOn_of_key (fun f => toLex (-f.modTime.sec, -(f.modTime.nsec : Int))) (by
    intro a b _ _
    rw [Prod.Lex.lt_iff]
    simp only [less_t, Time.After, neg_lt_neg_iff, neg_inj, Bool.or_eq_true,
      Bool.and_eq_true, decide_eq_true_eq, gt_iff_lt, Nat.cast_lt])

/-- C2: when the `switch` of `lessFuncGenerator` takes the `Flag_alpha` case, the `Flag_S`
case or the `Flag_t` case, the comparator it installs is a strict weak ordering of the
positions of every list of records: irreflexive, asymmetric, transitive, and with a
transitive incomparability relation. -/
theorem alpha_size_time_strictWeakOrder (api : Api) (lower : Char → Char)
    (files : List file) :
    ((api.FlagVector &&& api.Flag_alpha) > 0 →
      StrictWeakOrder files.length (lessFuncGenerator api lower files)) ∧
    ((api.FlagVector &&& api.Flag_alpha) = 0 → (api.FlagVector &&& api.Flag_S) > 0 →
      StrictWeakOrder files.length (lessFuncGenerator api lower files)) ∧
    ((api.FlagVector &&& api.Flag_alpha) = 0 → (api.FlagVector &&& api.Flag_S) = 0 →
      (api.FlagVector &&& api.Flag_t) > 0 →
      StrictWeakOrder files.length (lessFuncGenerator api lower files)) := by
  refine ⟨fun ha => ?_, fun ha hs => ?_, fun ha hs ht => ?_⟩
  · simp only [lessFuncGenerator, ha, if_true]
    exact (less_alpha_strictWeak lower _).onFiles
  · simp only [lessFuncGenerator, ha, hs, if_true, gt_iff_lt, lt_self_iff_false, if_false]
    exact (less_S_strictWeak lower _).onFiles
  · simp only [lessFuncGenerator, ha, hs, ht, if_true, gt_iff_lt, lt_self_iff_false,
      if_false]
    exact (less_t_strictWeak _).onFiles

/-- The three cases of C2 on the records `b.txt` (size 5) and `A.txt` (size 7), under the
flag vectors 1 (`Flag_alpha`), 2 (`Flag_S`) and 4 (`Flag_t`) of `exampleApi`. -/
theorem alpha_size_time_strictWeakOrder_witness :
    StrictWeakOrder [mkSized "b" ".txt" 5, mkSized "A" ".txt" 7].length
      (lessFuncGenerator (exampleApi 1) Char.toLower
        [mkSized "b" ".txt" 5, mkSized "A" ".txt" 7]) ∧
    StrictWeakOrder [mkSized "b" ".txt" 5, mkSized "A" ".txt" 7].length
      (lessFuncGenerator (exampleApi 2) Char.toLower
        [mkSized "b" ".txt" 5, mkSized "A" ".txt" 7]) ∧
    StrictWeakOrder [mkSized "b" ".txt" 5, mkSized "A" ".txt" 7].length
      (lessFuncGenerator (exampleApi 4) Char.toLower
        [mkSized "b" ".txt" 5, mkSized "A" ".txt" 7]) :=
  ⟨(alpha_size_time_strictWeakOrder (exampleApi 1) Char.toLower _).1 (by decide),
   (alpha_size_time_strictWeakOrder (exampleApi 2) Char.toLower _).2.1
     (by decide) (by decide),
   (alpha_size_time_strictWeakOrder (exampleApi 4) Char.toLower _).2.2
     (by decide) (by decide) (by decide)⟩

/-! ## Extension mode -/

/-- The four shapes of an extension that is empty or starts with `.`, with the key
`mainSort` compares in each. -/
theorem extShape_cases (lower : Char → Char) (e : String) (h : extShape e) :
    (e.data = [] ∧ (sortKey lower e).data = []) ∨
    (e.data = ['.'] ∧ (sortKey lower e).data = [lower '.']) ∨
    (e.data = ['.', '.'] ∧ (sortKey lower e).data = [lower '.', lower '.']) ∨
    ∃ r, e.data = '.' :: r ∧ r ≠ [] ∧ r ≠ ['.'] ∧ (sortKey lower e).data = r.map lower := by
  obtain ⟨l⟩ := e
  rcases h with h | h
  · left
    rw [h]
    exact ⟨rfl, rfl⟩
  · rcases l with _ | ⟨c, r⟩
    · simp at h
    · have hc : c = '.' := by simpa using h
      subst hc
      by_cases h1 : r = []
      · subst h1
        right; left
        exact ⟨rfl, rfl⟩
      · by_cases h2 : r = ['.']
        · subst h2
          right; right; left
          exact ⟨rfl, rfl⟩
        · right; right; right
          refine ⟨r, rfl, h1, h2, ?_⟩
          rw [sortKey_data, stripDot_dot_cons r h1 h2]

/-- Apart from the pair `..`, `...`, two extensions have the same lowercase form exactly
when `mainSort` gives them the same key. -/
theorem ext_collision_free (lower : Char → Char)
    (hdot : ∀ c, lower c = lower '.' → c = '.')
    (e1 e2 : String) (h1 : extShape e1) (h2 : extShape e2)
    (hne : ¬ (e1 = ".." ∧ e2 = "...")) (hne' : ¬ (e1 = "..." ∧ e2 = "..")) :
    ToLower lower e1 = ToLower lower e2 ↔ sortKey lower e1 = sortKey lower e2 := by
  have e3 : ∀ s : String, s = "..." ↔ s.data = ['.', '.', '.'] := fun s => by
    rw [String.ext_iff]
  rw [eq_dotdot_iff, e3] at hne hne'
  rw [String.ext_iff, @String.ext_iff (sortKey lower e1), ToLower_data, ToLower_data]
  have single : ∀ r : List Char, r.map lower = [lower '.'] → r = ['.'] := by
    intro r hr
    rcases r with _ | ⟨c, _ | ⟨d, r⟩⟩
    · simp at hr
    · simp at hr
      rw [hdot c hr]
    · simp at hr
  have double : ∀ r : List Char, r.map lower = [lower '.', lower '.'] → r = ['.', '.'] := by
    intro r hr
    rcases r with _ | ⟨c, _ | ⟨d, _ | ⟨e, r⟩⟩⟩
    · simp at hr
    · simp at hr
    · simp at hr
      rw [hdot c hr.1, hdot d hr.2]
    · simp at hr
  rcases extShape_cases lower e1 h1 with ⟨a, k⟩ | ⟨a, k⟩ | ⟨a, k⟩ | ⟨r, a, n1, n2, k⟩ <;>
  rcases extShape_cases lower e2 h2 with ⟨b, m⟩ | ⟨b, m⟩ | ⟨b, m⟩ | ⟨s, b, p1, p2, m⟩ <;>
  rw [a, b, k, m] <;> simp
  · exact p1
  · exact ⟨fun h => absurd h p1, fun h => absurd (single s h.symm) p2⟩
  · exact ⟨fun h => absurd (single s h.symm) p2,
      fun h => absurd ⟨a, by rw [b, double s h.symm]⟩ hne⟩
  · exact n1
  · exact ⟨fun h => absurd h n1, fun h => absurd (single r h) n2⟩
  · exact ⟨fun h => absurd (single r h) n2,
      fun h => absurd ⟨by rw [a, double r h], b⟩ hne'⟩

theorem less_X_strictWeak (lower : Char → Char)
    (hdot : ∀ c, lower c = lower '.' → c = '.') (files : List file)
    (hext : ∀ f ∈ files, extShape f.ext)
    (hcol : (∀ f ∈ files, f.ext ≠ "..") ∨ (∀ f ∈ files, f.ext ≠ "...")) :
    StrictWeakOn (fun f => f ∈ files) (less_X lower) :=
  strictWeakOn_of_key
    (fun f => toLex (sortKey lower f.ext, sortKey lower (f.name ++ f.ext))) (by
    intro a b ha hb
    have hiff := ext_collision_free lower hdot a.ext b.ext (hext a ha) (hext b hb)
      (by
        rintro ⟨h1, h2⟩
        rcases hcol with h | h
        · exact h a ha h1
        · exact h b hb h2)
      (by
        rintro ⟨h1, h2⟩
        rcases hcol with h | h
        · exact h b hb h2
        · exact h a ha h1)
    rw [Prod.Lex.lt_iff]
    simp only [less_X, mainSort_eq, hiff]
    by_cases h1 : sortKey lower a.ext < sortKey lower b.ext
    · simp [h1]
    · by_cases h2 : sortKey lower a.ext = sortKey lower b.ext
      · simp [h2]
      · simp [h1, h2])

/-- C3 (as amended): when the `switch` takes the `Flag_X` case, the comparator is a strict
weak ordering (irreflexive, asymmetric, transitive, transitive incomparability) of the
positions of every list of records whose ext is empty or starts with `.`, provided the
list does not hold both the ext `..` and the ext `...`.  The case map is any rune map
under which `.` shares its lowercase form with no other rune, as `unicode.ToLower`
does. -/
theorem ext_strictWeakOrder (api : Api) (lower : Char → Char)
    (hdot : ∀ c, lower c = lower '.' → c = '.') (files : List file)
    (h1 : (api.FlagVector &&& api.Flag_alpha) = 0) (h2 : (api.FlagVector &&& api.Flag_S) = 0)
    (h3 : (api.FlagVector &&& api.Flag_t) = 0) (h4 : (api.FlagVector &&& api.Flag_X) > 0)
    (hext : ∀ f ∈ files, extShape f.ext)
    (hcol : (∀ f ∈ files, f.ext ≠ "..") ∨ (∀ f ∈ files, f.ext ≠ "...")) :
    StrictWeakOrder files.length (lessFuncGenerator api lower files) := by
  simp only [lessFuncGenerator, h1, h2, h3, h4, if_true, gt_iff_lt, lt_self_iff_false,
    if_false]
  exact (less_X_strictWeak lower hdot files hext hcol).onFiles

/-- The ASCII case map sends no character other than `.` to the lowercase form of `.`. -/
theorem toLower_dot (c : Char) (h : Char.toLower c = Char.toLower '.') : c = '.' := by
  have h0 : Char.toLower '.' = '.' := by decide
  rw [h0] at h
  unfold Char.toLower at h
  simp only at h
  by_cases hc : c.toNat ≥ 65 ∧ c.toNat ≤ 90
  · rw [if_pos hc] at h
    exfalso
    obtain ⟨h1, h2⟩ := hc
    generalize c.toNat = n at h h1 h2
    interval_cases n <;> revert h <;> decide
  · rwa [if_neg hc] at h

/-- The amended C3 on the records `x.zip`, `y.tar`, under the flag vector 8 (`Flag_X`) of
`exampleApi` and the ASCII case map. -/
theorem ext_strictWeakOrder_witness :
    (∀ f ∈ [mkFile "x" ".zip" "", mkFile "y" ".tar" ""], extShape f.ext) ∧
    StrictWeakOrder [mkFile "x" ".zip" "", mkFile "y" ".tar" ""].length
      (lessFuncGenerator (exampleApi 8) Char.toLower
        [mkFile "x" ".zip" "", mkFile "y" ".tar" ""]) :=
  ⟨by decide,
   ext_strictWeakOrder (exampleApi 8) Char.toLower toLower_dot
    [mkFile "x" ".zip" "", mkFile "y" ".tar" ""] (by decide) (by decide) (by decide)
    (by decide) (by decide) (Or.inl (by decide))⟩

/-- C3 as stated fails: the records `b..`, `a...`, `a..` (names `b`, `a`, `a`; exts `..`,
`...`, `..`) all have an ext starting with `.`; in `Flag_X` mode positions 0 and 1 are
incomparable, positions 1 and 2 are incomparable, yet position 2 sorts before position 0,
so incomparability is not transitive. -/
theorem ext_strictWeakOrder_fails :
    (∀ f ∈ [mkFile "b" ".." "", mkFile "a" "..." "", mkFile "a" ".." ""], extShape f.ext) ∧
    ¬ StrictWeakOrder [mkFile "b" ".." "", mkFile "a" "..." "", mkFile "a" ".." ""].length
      (lessFuncGenerator (exampleApi 8) Char.toLower
        [mkFile "b" ".." "", mkFile "a" "..." "", mkFile "a" ".." ""]) := by
  refine ⟨by decide, fun h => ?_⟩
  have := (h.incomp_trans 0 1 2 (by decide) (by decide) (by decide) (by decide) (by decide)
    (by decide) (by decide)).2
  revert this
  decide

/-! ## Natural version mode -/

theorem strLess_irrefl (a : String) : strLess a a = false := by
  rw [strLess_eq]; simp

theorem strLess_asymm {a b : String} (h : strLess a b = true) : strLess b a = false := by
  rw [strLess_iff] at h
  rw [strLess_eq, decide_eq_false_iff_not]
  exact lt_asymm h

theorem numericLess_irrefl (n : String) : numericLess n n = false := by
  unfold numericLess
  cases Atoi (int_re_ReplaceAll n) <;> simp [strLess_irrefl]

theorem numericLess_asymm {a b : String} (h : numericLess a b = true) :
    numericLess b a = false := by
  unfold numericLess at h ⊢
  cases ha : Atoi (int_re_ReplaceAll a) <;> cases hb : Atoi (int_re_ReplaceAll b) <;>
    simp only [ha, hb] at h ⊢
  · exact strLess_asymm h
  · exact strLess_asymm h
  · exact strLess_asymm h
  · by_cases hs : str_re_ReplaceAll a = str_re_ReplaceAll b
    · simp only [hs, ne_eq, not_true_eq_false, if_false, decide_eq_true_eq,
        decide_eq_false_iff_not] at h ⊢
      omega
    · have hs' : ¬ str_re_ReplaceAll b = str_re_ReplaceAll a := fun e => hs e.symm
      simp only [hs, hs', ne_eq, not_false_eq_true, if_true] at h ⊢
      exact strLess_asymm h

/-- The `Flag_v` closure with its two copies of the numeric-aware block folded into
`numericLess`. -/
theorem less_v_eq (fi fj : file) :
    less_v fi fj =
      if fi.indicator = "/" ∧ fj.indicator = "/" then
        if fi.name = fj.name then strLess fi.ext fj.ext else numericLess fi.name fj.name
      else if fi.indicator = "/" then true
      else if fj.indicator = "/" then false
      else if fi.indicator = "*" ∧ fj.indicator = "*" then strLess fi.name fj.name
      else if fi.indicator = "*" then false
      else if fj.indicator = "*" then true
      else if Contains fi.ext "->" = true ∨ Contains fj.ext "->" = true then
        strLess fi.name fj.name
      else if fi.ext ≠ fj.ext then strLess fi.ext fj.ext
      else numericLess fi.name fj.name := by
  unfold less_v numericLess
  by_cases hdi : fi.indicator = "/" <;> by_cases hdj : fj.indicator = "/" <;>
    by_cases hei : fi.indicator = "*" <;> by_cases hej : fj.indicator = "*" <;>
    simp [hdi, hdj, hei, hej]

theorem less_v_irrefl (f : file) : less_v f f = false := by
  rw [less_v_eq]
  simp [strLess_irrefl, numericLess_irrefl]

theorem less_v_asymm {a b : file} (h : less_v a b = true) : less_v b a = false := by
  rw [less_v_eq] at h ⊢
  by_cases hda : a.indicator = "/" <;> by_cases hdb : b.indicator = "/" <;>
    simp only [hda, hdb, and_self, and_true, and_false, true_and, false_and, if_true,
      if_false] at h ⊢
  · by_cases hn : a.name = b.name
    · simp only [hn, if_true] at h ⊢
      exact strLess_asymm h
    · have hn' : ¬ b.name = a.name := fun e => hn e.symm
      simp only [hn, hn', if_false] at h ⊢
      exact numericLess_asymm h
  · exact absurd h (by simp)
  · by_cases hea : a.indicator = "*" <;> by_cases heb : b.indicator = "*" <;>
      simp only [hea, heb, and_self, and_true, and_false, true_and, false_and, if_true,
        if_false] at h ⊢
    · exact strLess_asymm h
    · exact absurd h (by simp)
    · by_cases hc : Contains a.ext "->" = true ∨ Contains b.ext "->" = true
      · have hc' : Contains b.ext "->" = true ∨ Contains a.ext "->" = true := hc.symm
        simp only [hc, hc', if_true] at h ⊢
        exact strLess_asymm h
      · have hc' : ¬ (Contains b.ext "->" = true ∨ Contains a.ext "->" = true) :=
          fun e => hc e.symm
        simp only [hc, hc', if_false] at h ⊢
        by_cases he : a.ext = b.ext
        · simp only [he, ne_eq, not_true_eq_false, if_false] at h ⊢
          exact numericLess_asymm h
        · have he' : ¬ b.ext = a.ext := fun e => he e.symm
          simp only [he, he', ne_eq, not_false_eq_true, if_true] at h ⊢
          exact strLess_asymm h

theorem Atoi_empty : Atoi ⟨[]⟩ = none := by decide

/-- A name without digit is compared as a plain string by the numeric-aware block. -/
theorem numericLess_of_digitFree (a b : String)
    (ha : ∀ c ∈ a.data, c.isDigit = false) : numericLess a b = strLess a b := by
  have h0 : int_re_ReplaceAll a = ⟨[]⟩ := by
    unfold int_re_ReplaceAll
    rw [List.filter_eq_nil_iff.2 (fun c hc => by simp [ha c hc])]
  unfold numericLess
  rw [h0, Atoi_empty]

theorem less_v_iff_vKey (a b : file) (ha : ∀ c ∈ a.name.data, c.isDigit = false)
    (hca : Contains a.ext "->" = false) (hcb : Contains b.ext "->" = false) :
    less_v a b = true ↔ vKey a < vKey b := by
  rw [less_v_eq]
  unfold vKey
  by_cases hda : a.indicator = "/" <;> by_cases hdb : b.indicator = "/" <;>
    simp only [hda, hdb, and_self, and_true, and_false, true_and, false_and, if_true,
      if_false]
  · rw [Prod.Lex.lt_iff, Prod.Lex.lt_iff, numericLess_of_digitFree a.name b.name ha]
    by_cases hn : a.name = b.name
    · simp [hn, strLess_iff]
    · simp [hn, strLess_iff]
  · by_cases heb : b.indicator = "*" <;> simp [heb, Prod.Lex.lt_iff]
  · by_cases hea : a.indicator = "*" <;> simp [hea, Prod.Lex.lt_iff]
  · by_cases hea : a.indicator = "*" <;> by_cases heb : b.indicator = "*" <;>
      simp only [hea, heb, and_self, and_true, and_false, true_and, false_and, if_true,
        if_false]
    · simp [Prod.Lex.lt_iff, strLess_iff]
    · simp [Prod.Lex.lt_iff]
    · simp [Prod.Lex.lt_iff]
    · rw [Prod.Lex.lt_iff, Prod.Lex.lt_iff, numericLess_of_digitFree a.name b.name ha]
      by_cases he : a.ext = b.ext
      · simp [hca, hcb, he, strLess_iff]
      · simp [hca, hcb, he, strLess_iff]

theorem less_v_strictWeak (files : List file)
    (hfree : ∀ f ∈ files, (∀ c ∈ f.name.data, c.isDigit = false) ∧
      Contains f.ext "->" = false) :
    StrictWeakOn (fun f => f ∈ files) less_v :=
  strictWeakOn_of_key vKey (fun a b ha hb =>
    less_v_iff_vKey a b (hfree a ha).1 (hfree a ha).2 (hfree b hb).2)

/-- What the `Flag_v` comparator does keep of a strict weak ordering: it is irreflexive
and asymmetric on the positions of every list of records, and on the lists in which no
name contains a digit and no ext contains `->` (where neither the numeric rule nor the
symlink rule applies) it is transitive with a transitive incomparability relation. -/
theorem natural_irreflexive_asymmetric (api : Api) (lower : Char → Char) (files : List file)
    (h1 : (api.FlagVector &&& api.Flag_alpha) = 0) (h2 : (api.FlagVector &&& api.Flag_S) = 0)
    (h3 : (api.FlagVector &&& api.Flag_t) = 0) (h4 : (api.FlagVector &&& api.Flag_X) = 0)
    (h5 : (api.FlagVector &&& api.Flag_v) > 0) :
    (∀ i, i < files.length → lessFuncGenerator api lower files i i = some false) ∧
    (∀ i j, i < files.length → j < files.length →
      lessFuncGenerator api lower files i j = some true →
      lessFuncGenerator api lower files j i = some false) ∧
    ((∀ f ∈ files, (∀ c ∈ f.name.data, c.isDigit = false) ∧ Contains f.ext "->" = false) →
      StrictWeakOrder files.length (lessFuncGenerator api lower files)) := by
  have hgen : lessFuncGenerator api lower = onFiles less_v := by
    simp only [lessFuncGenerator, h1, h2, h3, h4, h5, if_true, gt_iff_lt, lt_self_iff_false,
      if_false]
  rw [hgen]
  refine ⟨fun i hi => ?_, fun i j hi hj hij => ?_, fun hfree => ?_⟩
  · rw [onFiles_eq_some hi hi, less_v_irrefl]
  · rw [onFiles_eq_some hi hj] at hij
    rw [onFiles_eq_some hj hi, less_v_asymm (Option.some.inj hij)]
  · exact (less_v_strictWeak files hfree).onFiles

/-- The previous fact on a directory, a plain file and an executable without digit in the
name, under the flag vector 16 (`Flag_v`) of `exampleApi`. -/
theorem natural_irreflexive_asymmetric_witness :
    (∀ f ∈ [mkFile "zdir" "" "/", mkFile "afile" ".txt" "", mkFile "aexe" "" "*"],
      (∀ c ∈ f.name.data, c.isDigit = false) ∧ Contains f.ext "->" = false) ∧
    StrictWeakOrder [mkFile "zdir" "" "/", mkFile "afile" ".txt" "", mkFile "aexe" "" "*"].length
      (lessFuncGenerator (exampleApi 16) Char.toLower
        [mkFile "zdir" "" "/", mkFile "afile" ".txt" "", mkFile "aexe" "" "*"]) :=
  ⟨by decide,
   (natural_irreflexive_asymmetric (exampleApi 16) Char.toLower
    [mkFile "zdir" "" "/", mkFile "afile" ".txt" "", mkFile "aexe" "" "*"]
    (by decide) (by decide) (by decide) (by decide) (by decide)).2.2 (by decide)⟩

/-- C1: the `Flag_v` comparator, commented in the source as a natural sort of the numbers
within text, is not a strict weak ordering.  Plain files `a9`, `a10`, `a1b` with empty
ext: `a9` sorts before `a10` (equal skeletons, 9 < 10), `a10` before `a1b` (skeletons
differ, plain order), but `a9` does not sort before `a1b` (`a1b` sorts before `a9`), so
the comparator is not transitive and the three names form a cycle.  Directories
`a1` (ext `.x`), `a01` (ext `.y`), `a1` (ext `.y`): the first two and the last two are
incomparable (equal skeletons, equal values), yet the first sorts before the third, so
incomparability is not transitive. -/
theorem natural_strictWeakOrder_fails :
    lessFuncGenerator (exampleApi 16) Char.toLower
      [mkFile "a9" "" "", mkFile "a10" "" "", mkFile "a1b" "" ""] 0 1 = some true ∧
    lessFuncGenerator (exampleApi 16) Char.toLower
      [mkFile "a9" "" "", mkFile "a10" "" "", mkFile "a1b" "" ""] 1 2 = some true ∧
    lessFuncGenerator (exampleApi 16) Char.toLower
      [mkFile "a9" "" "", mkFile "a10" "" "", mkFile "a1b" "" ""] 0 2 = some false ∧
    lessFuncGenerator (exampleApi 16) Char.toLower
      [mkFile "a9" "" "", mkFile "a10" "" "", mkFile "a1b" "" ""] 2 0 = some true ∧
    ¬ StrictWeakOrder [mkFile "a9" "" "", mkFile "a10" "" "", mkFile "a1b" "" ""].length
      (lessFuncGenerator (exampleApi 16) Char.toLower
        [mkFile "a9" "" "", mkFile "a10" "" "", mkFile "a1b" "" ""]) ∧
    ¬ StrictWeakOrder
      [mkFile "a1" ".x" "/", mkFile "a01" ".y" "/", mkFile "a1" ".y" "/"].length
      (lessFuncGenerator (exampleApi 16) Char.toLower
        [mkFile "a1" ".x" "/", mkFile "a01" ".y" "/", mkFile "a1" ".y" "/"]) := by
  refine ⟨by decide, by decide, by decide, by decide, fun h => ?_, fun h => ?_⟩
  · have := h.trans 0 1 2 (by decide) (by decide) (by decide) (by decide) (by decide)
    revert this
    decide
  · have := (h.incomp_trans 0 1 2 (by decide) (by decide) (by decide) (by decide)
      (by decide) (by decide) (by decide)).1
    revert this
    decide

/-! ## `mainSort` against its specification -/

theorem trimPrefixStr_dot (s : String) : trimPrefixStr s "." = withoutLeadingDot s := by
  obtain ⟨l⟩ := s
  have hd : (".").data = ['.'] := rfl
  unfold trimPrefixStr withoutLeadingDot
  rcases l with _ | ⟨c, r⟩
  · simp [hd]
  · by_cases hc : c = '.'
    · subst hc
      simp [hd]
    · have hc' : ¬ '.' = c := fun e => hc e.symm
      simp only [hd, List.isPrefixOf, beq_iff_eq, hc', Bool.and_eq_true, false_and,
        Bool.false_eq_true, if_false]
      split
      · rename_i r' heq
        exact absurd (List.cons.inj heq).1 hc
      · rfl

theorem sortKey_eq_norm (lower : Char → Char) (s : String) :
    sortKey lower s = norm lower s := by
  unfold sortKey stripDot norm
  rw [trimPrefixStr_dot]

theorem onFiles_of_get {body : file → file → Bool} {files : List file} {i j : Nat}
    {fi fj : file} (hi : files[i]? = some fi) (hj : files[j]? = some fj) :
    onFiles body files i j = some (body fi fj) := by
  simp [onFiles, hi, hj]

/-- C4: `mainSort a b` holds exactly when `norm a < norm b`, where `norm` lowercases the
string after removing one leading `.` (`.` and `..` are kept, `..x` becomes `.x`); in
`Flag_alpha` mode the comparator is `mainSort` on `name + ext`; and the names `banana`,
`.apple`, `Cherry` with empty ext are ordered `.apple`, `banana`, `Cherry`. -/
theorem mainSort_iff_norm_lt :
    (∀ (lower : Char → Char) (a b : String),
      mainSort lower a b = true ↔ norm lower a < norm lower b) ∧
    (norm Char.toLower "." = "." ∧ norm Char.toLower ".." = ".." ∧
      norm Char.toLower "..x" = ".x" ∧ norm Char.toLower ".Apple" = "apple") ∧
    (∀ (api : Api) (lower : Char → Char) (files : List file) (i j : Nat) (fi fj : file),
      (api.FlagVector &&& api.Flag_alpha) > 0 → files[i]? = some fi → files[j]? = some fj →
      lessFuncGenerator api lower files i j =
        some (mainSort lower (fi.name ++ fi.ext) (fj.name ++ fj.ext))) ∧
    OrderedAs (lessFuncGenerator (exampleApi 1) Char.toLower
      [mkFile "banana" "" "", mkFile ".apple" "" "", mkFile "Cherry" "" ""]) [1, 0, 2] := by
  refine ⟨fun lower a b => ?_, by decide, fun api lower files i j fi fj ha hi hj => ?_,
    by decide⟩
  · rw [mainSort_eq, decide_eq_true_eq, sortKey_eq_norm, sortKey_eq_norm]
  · simp only [lessFuncGenerator, ha, if_true]
    exact onFiles_of_get hi hj

/-- The `Flag_alpha` rule of C4 at positions 1 and 0 of `banana`, `.apple`, `Cherry`. -/
theorem mainSort_iff_norm_lt_witness :
    lessFuncGenerator (exampleApi 1) Char.toLower
      [mkFile "banana" "" "", mkFile ".apple" "" "", mkFile "Cherry" "" ""] 1 0 =
      some (mainSort Char.toLower (".apple" ++ "") ("banana" ++ "")) :=
  mainSort_iff_norm_lt.2.2.1 (exampleApi 1) Char.toLower
    [mkFile "banana" "" "", mkFile ".apple" "" "", mkFile "Cherry" "" ""] 1 0
    (mkFile ".apple" "" "") (mkFile "banana" "" "") (by decide) (by decide) (by decide)

/-- C5 as stated fails: `.x` and `x` have different lowercase forms, yet neither
`mainSort ".x" "x"` nor `mainSort "x" ".x"` holds, because the leading `.` is removed
before the comparison. -/
theorem mainSort_total_fails :
    ToLower Char.toLower ".x" ≠ ToLower Char.toLower "x" ∧
    mainSort Char.toLower ".x" "x" = false ∧ mainSort Char.toLower "x" ".x" = false := by
  decide

/-- C5 (as amended): `mainSort` is total apart from collisions of its key: for all strings
`a` and `b` whose normal forms `norm a` and `norm b` (one leading `.` removed unless the
string is `.` or `..`, then lowercased) differ, exactly one of `mainSort a b` and
`mainSort b a` is true. -/
theorem mainSort_total_on_norm (lower : Char → Char) (a b : String)
    (h : norm lower a ≠ norm lower b) :
    (mainSort lower a b = true ∧ mainSort lower b a = false) ∨
    (mainSort lower a b = false ∧ mainSort lower b a = true) := by
  simp only [mainSort_eq, sortKey_eq_norm, decide_eq_true_eq, decide_eq_false_iff_not]
  rcases lt_trichotomy (norm lower a) (norm lower b) with hlt | heq | hgt
  · exact Or.inl ⟨hlt, lt_asymm hlt⟩
  · exact absurd heq h
  · exact Or.inr ⟨lt_asymm hgt, hgt⟩

/-- The amended C5 on `banana` and `Cherry`. -/
theorem mainSort_total_on_norm_witness :
    (mainSort Char.toLower "banana" "Cherry" = true ∧
      mainSort Char.toLower "Cherry" "banana" = false) ∨
    (mainSort Char.toLower "banana" "Cherry" = false ∧
      mainSort Char.toLower "Cherry" "banana" = true) :=
  mainSort_total_on_norm Char.toLower "banana" "Cherry" (by decide)

/-- C6: a hidden name sorts alongside its unhidden counterpart: for a non-empty `s` that
does not start with `.`, neither of `"." + s` and `s` sorts before the other, and against
every string `t` the two give the same answers of `mainSort`, on either side. -/
theorem mainSort_hidden_alongside (lower : Char → Char) (s : String) (hne : s ≠ "")
    (hdot : s.data.head? ≠ some '.') :
    mainSort lower ("." ++ s) s = false ∧ mainSort lower s ("." ++ s) = false ∧
    ∀ t : String, mainSort lower ("." ++ s) t = mainSort lower s t ∧
      mainSort lower t ("." ++ s) = mainSort lower t s := by
  have hkey : sortKey lower ("." ++ s) = sortKey lower s := by
    have h1 : s.data ≠ [] := fun e => hne (String.ext e)
    have h2 : s.data ≠ ['.'] := fun e => hdot (by rw [e]; rfl)
    have h3 : "." ++ s = ⟨'.' :: s.data⟩ := String.ext (by simp [String.data_append])
    unfold sortKey
    rw [h3, stripDot_dot_cons s.data h1 h2, stripDot_of_head_ne s hdot]
  simp only [mainSort_eq, hkey, lt_self_iff_false, decide_False, and_self, true_and,
    implies_true]

/-- C6 on the name `apple`. -/
theorem mainSort_hidden_alongside_witness :
    mainSort Char.toLower ("." ++ "apple") "apple" = false ∧
    mainSort Char.toLower "apple" ("." ++ "apple") = false ∧
    ∀ t : String, mainSort Char.toLower ("." ++ "apple") t = mainSort Char.toLower "apple" t ∧
      mainSort Char.toLower t ("." ++ "apple") = mainSort Char.toLower t "apple" :=
  mainSort_hidden_alongside Char.toLower "apple" (by decide) (by decide)

/-! ## The dispatch -/

theorem comparatorOf_answers (lower : Char → Char) (m : SortMode) (files : List file)
    (i j : Nat) (hi : i < files.length) (hj : j < files.length) :
    ∃ b, comparatorOf lower m files i j = some b := by
  cases m
  · exact ⟨_, rfl⟩
  all_goals exact ⟨_, onFiles_eq_some hi hj⟩

/-- C7: for every flag vector and every value of the flag constants, the comparator that
`lessFuncGenerator` installs is the one of the governing mode, the first requested mode in
the order alphabetical, size, time, extension, natural, and the default comparator when
none is requested; whatever the flags, the comparator answers on every pair of positions
of the list.  With one bit per flag: all five flags give alphabetical, the last four
size, the last three time, extension with natural gives extension. -/
theorem lessFuncGenerator_precedence :
    (∀ (api : Api) (lower : Char → Char),
      lessFuncGenerator api lower = comparatorOf lower (governingMode api)) ∧
    (∀ (api : Api) (lower : Char → Char) (files : List file) (i j : Nat),
      i < files.length → j < files.length →
      ∃ b, lessFuncGenerator api lower files i j = some b) ∧
    (governingMode (exampleApi 31) = SortMode.Alphabetical ∧
      governingMode (exampleApi 30) = SortMode.SizeDescending ∧
      governingMode (exampleApi 28) = SortMode.TimeDescending ∧
      governingMode (exampleApi 24) = SortMode.ExtensionAlphabetical ∧
      governingMode (exampleApi 16) = SortMode.NaturalVersion ∧
      governingMode (exampleApi 32) = SortMode.Default) := by
  have main : ∀ (api : Api) (lower : Char → Char),
      lessFuncGenerator api lower = comparatorOf lower (governingMode api) := by
    intro api lower
    unfold lessFuncGenerator governingMode precedence
    by_cases ha : (api.FlagVector &&& api.Flag_alpha) > 0
    · simp [List.find?, SortMode.requested, SortMode.flag, ha, comparatorOf]
    by_cases hs : (api.FlagVector &&& api.Flag_S) > 0
    · simp [List.find?, SortMode.requested, SortMode.flag, ha, hs, comparatorOf]
    by_cases ht : (api.FlagVector &&& api.Flag_t) > 0
    · simp [List.find?, SortMode.requested, SortMode.flag, ha, hs, ht, comparatorOf]
    by_cases hx : (api.FlagVector &&& api.Flag_X) > 0
    · simp [List.find?, SortMode.requested, SortMode.flag, ha, hs, ht, hx, comparatorOf]
    by_cases hv : (api.FlagVector &&& api.Flag_v) > 0
    · simp [List.find?, SortMode.requested, SortMode.flag, ha, hs, ht, hx, hv, comparatorOf]
    · simp [List.find?, SortMode.requested, SortMode.flag, ha, hs, ht, hx, hv, comparatorOf]
  refine ⟨main, fun api lower files i j hi hj => ?_, by decide⟩
  rw [main]
  exact comparatorOf_answers lower _ files i j hi hj

/-- C7 with all five sort flags set: the comparator answers at positions 0 and 1. -/
theorem lessFuncGenerator_precedence_witness :
    ∃ b, lessFuncGenerator (exampleApi 31) Char.toLower
      [mkFile "x" ".zip" "", mkFile "y" ".tar" ""] 0 1 = some b :=
  lessFuncGenerator_precedence.2.1 (exampleApi 31) Char.toLower
    [mkFile "x" ".zip" "", mkFile "y" ".tar" ""] 0 1 (by decide) (by decide)

/-! ## Default mode -/

theorem insertionInner_of_never (less : List file → Nat → Nat → Option Bool)
    (hless : ∀ fs j, less fs (j + 1) j ≠ some true) (a i : Nat) (fs : List file) :
    insertionInner less a i fs = fs := by
  cases i with
  | zero => rfl
  | succ j => simp [insertionInner, hless fs j]

theorem insertionSort_of_never (less : List file → Nat → Nat → Option Bool)
    (hless : ∀ fs j, less fs (j + 1) j ≠ some true) (a b : Nat) (fs : List file) :
    insertionSort less a b fs = fs := by
  unfold insertionSort
  generalize List.range' (a + 1) (b - (a + 1)) = l
  induction l with
  | nil => rfl
  | cons i l ih => rw [List.foldl_cons, insertionInner_of_never less hless, ih]

/-- C8: when none of the five sort flags is set the comparator is `less(i, j) = (i < j)`:
it does not depend on the records, no pair of positions `k < l` has `less(l, k)`, every
list passes `sort.IsSorted`, and an insertion sort with this comparator leaves every list
unchanged. -/
theorem default_mode_keeps_order (api : Api) (lower : Char → Char)
    (h1 : (api.FlagVector &&& api.Flag_alpha) = 0) (h2 : (api.FlagVector &&& api.Flag_S) = 0)
    (h3 : (api.FlagVector &&& api.Flag_t) = 0) (h4 : (api.FlagVector &&& api.Flag_X) = 0)
    (h5 : (api.FlagVector &&& api.Flag_v) = 0) :
    (∀ (files : List file) (i j : Nat),
      lessFuncGenerator api lower files i j = some (decide (i < j))) ∧
    (∀ (files files' : List file) (i j : Nat),
      lessFuncGenerator api lower files i j = lessFuncGenerator api lower files' i j) ∧
    (∀ (files : List file) (k l : Nat), k < l →
      lessFuncGenerator api lower files l k = some false) ∧
    (∀ files : List file, IsSorted files.length (lessFuncGenerator api lower files) = true) ∧
    (∀ files : List file,
      insertionSort (lessFuncGenerator api lower) 0 files.length files = files) := by
  have hgen : lessFuncGenerator api lower = fun _ i j => some (decide (i < j)) := by
    simp only [lessFuncGenerator, h1, h2, h3, h4, h5, gt_iff_lt, lt_self_iff_false, if_false]
  rw [hgen]
  refine ⟨fun _ _ _ => rfl, fun _ _ _ _ => rfl, fun _ k l hkl => ?_, fun files => ?_,
    fun files => ?_⟩
  · simp [Nat.not_lt.2 (Nat.le_of_lt hkl)]
  · simp only [IsSorted, List.all_eq_true, List.mem_range'_1, beq_iff_eq, Option.some.injEq,
      decide_eq_false_iff_not]
    intro i hi
    omega
  · exact insertionSort_of_never _ (fun fs j => by simp) 0 _ files

/-- C8 under the flag vector 32 (no sort flag) of `exampleApi`. -/
theorem default_mode_keeps_order_witness :
    (∀ (files : List file) (i j : Nat),
      lessFuncGenerator (exampleApi 32) Char.toLower files i j = some (decide (i < j))) ∧
    insertionSort (lessFuncGenerator (exampleApi 32) Char.toLower) 0
      [mkFile "banana" "" "", mkFile ".apple" "" "", mkFile "Cherry" "" ""].length
      [mkFile "banana" "" "", mkFile ".apple" "" "", mkFile "Cherry" "" ""] =
      [mkFile "banana" "" "", mkFile ".apple" "" "", mkFile "Cherry" "" ""] :=
  ⟨(default_mode_keeps_order (exampleApi 32) Char.toLower (by decide) (by decide) (by decide)
      (by decide) (by decide)).1,
   (default_mode_keeps_order (exampleApi 32) Char.toLower (by decide) (by decide) (by decide)
      (by decide) (by decide)).2.2.2.2 _⟩

/-! ## Size and extension modes, rule by rule -/

/-- C9: in `Flag_S` mode `less(i, j)` is true exactly when `size_i > size_j`, or
`size_i = size_j` and `mainSort (name_i + ext_i) (name_j + ext_j)`; the records of sizes
10, 100, 100 and names `a`, `b`, `a` are ordered (a,100), (b,100), (a,10), that is
positions 2, 1, 0. -/
theorem size_mode_rule :
    (∀ (api : Api) (lower : Char → Char) (files : List file) (i j : Nat) (fi fj : file),
      (api.FlagVector &&& api.Flag_alpha) = 0 → (api.FlagVector &&& api.Flag_S) > 0 →
      files[i]? = some fi → files[j]? = some fj →
      ∃ b, lessFuncGenerator api lower files i j = some b ∧
        (b = true ↔ fi.size > fj.size ∨
          (fi.size = fj.size ∧
            mainSort lower (fi.name ++ fi.ext) (fj.name ++ fj.ext) = true))) ∧
    OrderedAs (lessFuncGenerator (exampleApi 2) Char.toLower
      [mkSized "a" "" 10, mkSized "b" "" 100, mkSized "a" "" 100]) [2, 1, 0] := by
  refine ⟨fun api lower files i j fi fj ha hs hi hj => ?_, by decide⟩
  simp only [lessFuncGenerator, ha, hs, if_true, gt_iff_lt, lt_self_iff_false, if_false]
  refine ⟨_, onFiles_of_get hi hj, ?_⟩
  unfold less_S
  by_cases h1 : fi.size > fj.size
  · simp [h1]
  · by_cases h2 : fi.size = fj.size
    · simp [h2]
    · have h3 : ¬ fj.size < fi.size := h1
      simp [h2, h3]

/-- The rule of C9 at positions 2 and 1 of the example. -/
theorem size_mode_rule_witness :
    ∃ b, lessFuncGenerator (exampleApi 2) Char.toLower
        [mkSized "a" "" 10, mkSized "b" "" 100, mkSized "a" "" 100] 2 1 = some b ∧
      (b = true ↔ (mkSized "a" "" 100).size > (mkSized "b" "" 100).size ∨
        ((mkSized "a" "" 100).size = (mkSized "b" "" 100).size ∧
          mainSort Char.toLower ((mkSized "a" "" 100).name ++ (mkSized "a" "" 100).ext)
            ((mkSized "b" "" 100).name ++ (mkSized "b" "" 100).ext) = true)) :=
  size_mode_rule.1 (exampleApi 2) Char.toLower
    [mkSized "a" "" 10, mkSized "b" "" 100, mkSized "a" "" 100] 2 1 _ _
    (by decide) (by decide) (by decide) (by decide)

/-- C10: in `Flag_X` mode `less(i, j)` is true exactly when `mainSort ext_i ext_j`, or
else the lowercase forms of the two exts are equal and
`mainSort (name_i + ext_i) (name_j + ext_j)`; in every other case it is false.  The
records `x.zip`, `y.tar` are ordered `y.tar`, `x.zip`, that is positions 1, 0. -/
theorem ext_mode_rule :
    (∀ (api : Api) (lower : Char → Char) (files : List file) (i j : Nat) (fi fj : file),
      (api.FlagVector &&& api.Flag_alpha) = 0 → (api.FlagVector &&& api.Flag_S) = 0 →
      (api.FlagVector &&& api.Flag_t) = 0 → (api.FlagVector &&& api.Flag_X) > 0 →
      files[i]? = some fi → files[j]? = some fj →
      ∃ b, lessFuncGenerator api lower files i j = some b ∧
        (b = true ↔ mainSort lower fi.ext fj.ext = true ∨
          (mainSort lower fi.ext fj.ext = false ∧
            ToLower lower fi.ext = ToLower lower fj.ext ∧
            mainSort lower (fi.name ++ fi.ext) (fj.name ++ fj.ext) = true))) ∧
    OrderedAs (lessFuncGenerator (exampleApi 8) Char.toLower
      [mkFile "x" ".zip" "", mkFile "y" ".tar" ""]) [1, 0] := by
  refine ⟨fun api lower files i j fi fj ha hs ht hx hi hj => ?_, by decide⟩
  simp only [lessFuncGenerator, ha, hs, ht, hx, if_true, gt_iff_lt, lt_self_iff_false,
    if_false]
  refine ⟨_, onFiles_of_get hi hj, ?_⟩
  unfold less_X
  by_cases h1 : mainSort lower fi.ext fj.ext = true
  · simp [h1]
  · by_cases h2 : ToLower lower fi.ext = ToLower lower fj.ext
    · simp [h1, h2]
    · simp [h1, h2]

/-- The rule of C10 at positions 1 and 0 of the example. -/
theorem ext_mode_rule_witness :
    ∃ b, lessFuncGenerator (exampleApi 8) Char.toLower
        [mkFile "x" ".zip" "", mkFile "y" ".tar" ""] 1 0 = some b ∧
      (b = true ↔ mainSort Char.toLower ".tar" ".zip" = true ∨
        (mainSort Char.toLower ".tar" ".zip" = false ∧
          ToLower Char.toLower ".tar" = ToLower Char.toLower ".zip" ∧
          mainSort Char.toLower ("y" ++ ".tar") ("x" ++ ".zip") = true)) :=
  ext_mode_rule.1 (exampleApi 8) Char.toLower
    [mkFile "x" ".zip" "", mkFile "y" ".tar" ""] 1 0 (mkFile "y" ".tar" "")
    (mkFile "x" ".zip" "") (by decide) (by decide) (by decide) (by decide) (by decide)
    (by decide)

/-! ## Natural version mode, rule by rule -/

theorem lessFuncGenerator_of_reachesFlag_v {api : Api} (lower : Char → Char)
    (hv : reachesFlag_v api) : lessFuncGenerator api lower = onFiles less_v := by
  obtain ⟨h1, h2, h3, h4, h5⟩ := hv
  simp only [lessFuncGenerator, h1, h2, h3, h4, h5, if_true, gt_iff_lt, lt_self_iff_false,
    if_false]

/-- C11: in `Flag_v` mode a directory sorts before every record that is not a directory,
and no non-directory sorts before a directory, whatever the other fields; the directory
`zdir` precedes the plain file `afile`. -/
theorem natural_directories_first :
    (∀ (api : Api) (lower : Char → Char) (files : List file) (i j : Nat) (fi fj : file),
      reachesFlag_v api → files[i]? = some fi → files[j]? = some fj →
      fi.indicator = "/" → fj.indicator ≠ "/" →
      lessFuncGenerator api lower files i j = some true ∧
        lessFuncGenerator api lower files j i = some false) ∧
    OrderedAs (lessFuncGenerator (exampleApi 16) Char.toLower
      [mkFile "afile" "" "", mkFile "zdir" "" "/"]) [1, 0] := by
  refine ⟨fun api lower files i j fi fj hv hi hj hdi hdj => ?_, by decide⟩
  rw [lessFuncGenerator_of_reachesFlag_v lower hv, onFiles_of_get hi hj,
    onFiles_of_get hj hi, less_v_eq, less_v_eq]
  simp [hdi, hdj]

/-- C11 on the directory `zdir` and the plain file `afile`. -/
theorem natural_directories_first_witness :
    lessFuncGenerator (exampleApi 16) Char.toLower
        [mkFile "afile" "" "", mkFile "zdir" "" "/"] 1 0 = some true ∧
      lessFuncGenerator (exampleApi 16) Char.toLower
        [mkFile "afile" "" "", mkFile "zdir" "" "/"] 0 1 = some false :=
  natural_directories_first.1 (exampleApi 16) Char.toLower
    [mkFile "afile" "" "", mkFile "zdir" "" "/"] 1 0 (mkFile "zdir" "" "/")
    (mkFile "afile" "" "") (by decide) (by decide) (by decide) (by decide) (by decide)

/-- C12: in `Flag_v` mode, among non-directories, a record that is not executable sorts
before an executable one and not the other way round; two executables are ordered by
`name_i < name_j` alone.  The plain file `bfile` precedes the executable `aexe`. -/
theorem natural_executables_last :
    (∀ (api : Api) (lower : Char → Char) (files : List file) (i j : Nat) (fi fj : file),
      reachesFlag_v api → files[i]? = some fi → files[j]? = some fj →
      fi.indicator ≠ "/" → fj.indicator ≠ "/" →
      (fi.indicator ≠ "*" → fj.indicator = "*" →
        lessFuncGenerator api lower files i j = some true ∧
          lessFuncGenerator api lower files j i = some false) ∧
      (fi.indicator = "*" → fj.indicator = "*" →
        lessFuncGenerator api lower files i j = some (strLess fi.name fj.name))) ∧
    OrderedAs (lessFuncGenerator (exampleApi 16) Char.toLower
      [mkFile "aexe" "" "*", mkFile "bfile" "" ""]) [1, 0] := by
  refine ⟨fun api lower files i j fi fj hv hi hj hdi hdj => ⟨fun hei hej => ?_,
    fun hei hej => ?_⟩, by decide⟩
  · rw [lessFuncGenerator_of_reachesFlag_v lower hv, onFiles_of_get hi hj,
      onFiles_of_get hj hi, less_v_eq, less_v_eq]
    simp [hdi, hdj, hei, hej]
  · rw [lessFuncGenerator_of_reachesFlag_v lower hv, onFiles_of_get hi hj, less_v_eq]
    simp [hei, hej]

/-- C12 on the executable `aexe` and the plain file `bfile`. -/
theorem natural_executables_last_witness :
    (lessFuncGenerator (exampleApi 16) Char.toLower
        [mkFile "aexe" "" "*", mkFile "bfile" "" ""] 1 0 = some true ∧
      lessFuncGenerator (exampleApi 16) Char.toLower
        [mkFile "aexe" "" "*", mkFile "bfile" "" ""] 0 1 = some false) ∧
    lessFuncGenerator (exampleApi 16) Char.toLower
        [mkFile "aexe" "" "*", mkFile "bfile" "" ""] 0 0 = some (strLess "aexe" "aexe") :=
  ⟨(natural_executables_last.1 (exampleApi 16) Char.toLower
      [mkFile "aexe" "" "*", mkFile "bfile" "" ""] 1 0 (mkFile "bfile" "" "")
      (mkFile "aexe" "" "*") (by decide) (by decide) (by decide) (by decide)
      (by decide)).1 (by decide) (by decide),
   (natural_executables_last.1 (exampleApi 16) Char.toLower
      [mkFile "aexe" "" "*", mkFile "bfile" "" ""] 0 0 (mkFile "aexe" "" "*")
      (mkFile "aexe" "" "*") (by decide) (by decide) (by decide) (by decide)
      (by decide)).2 (by decide) (by decide)⟩

/-- C13: in `Flag_v` mode, for two records that are neither directories nor executables,
when the ext of either contains `->` the comparator is `name_i < name_j`, whatever the
exts and the digits of the names. -/
theorem natural_symlink_by_name (api : Api) (lower : Char → Char) (files : List file)
    (i j : Nat) (fi fj : file) (hv : reachesFlag_v api)
    (hi : files[i]? = some fi) (hj : files[j]? = some fj)
    (hdi : fi.indicator ≠ "/") (hdj : fj.indicator ≠ "/")
    (hei : fi.indicator ≠ "*") (hej : fj.indicator ≠ "*")
    (harrow : Contains fi.ext "->" = true ∨ Contains fj.ext "->" = true) :
    lessFuncGenerator api lower files i j = some (strLess fi.name fj.name) ∧
    (strLess fi.name fj.name = true ↔ fi.name < fj.name) := by
  rw [lessFuncGenerator_of_reachesFlag_v lower hv, onFiles_of_get hi hj, less_v_eq]
  simp [hdi, hdj, hei, hej, harrow, strLess_iff]

/-- C13 on a symlink `link9` and a plain file `file10.txt`. -/
theorem natural_symlink_by_name_witness :
    lessFuncGenerator (exampleApi 16) Char.toLower
        [mkFile "link9" " -> /tmp/x" "", mkFile "file10" ".txt" ""] 0 1 =
      some (strLess "link9" "file10") ∧
    (strLess "link9" "file10" = true ↔ "link9" < "file10") :=
  natural_symlink_by_name (exampleApi 16) Char.toLower
    [mkFile "link9" " -> /tmp/x" "", mkFile "file10" ".txt" ""] 0 1
    (mkFile "link9" " -> /tmp/x" "") (mkFile "file10" ".txt" "") (by decide) (by decide)
    (by decide) (by decide) (by decide) (by decide) (by decide) (Or.inl (by decide))

/-- C14: in `Flag_v` mode, for two records that are neither directories nor executables
and whose exts hold no `->`: different exts are ordered by `ext_i < ext_j`, whatever the
names; with equal exts the result is the numeric-aware comparison of the names. -/
theorem natural_ext_first (api : Api) (lower : Char → Char) (files : List file)
    (i j : Nat) (fi fj : file) (hv : reachesFlag_v api)
    (hi : files[i]? = some fi) (hj : files[j]? = some fj)
    (hdi : fi.indicator ≠ "/") (hdj : fj.indicator ≠ "/")
    (hei : fi.indicator ≠ "*") (hej : fj.indicator ≠ "*")
    (hai : Contains fi.ext "->" = false) (haj : Contains fj.ext "->" = false) :
    (fi.ext ≠ fj.ext →
      lessFuncGenerator api lower files i j = some (strLess fi.ext fj.ext) ∧
        (strLess fi.ext fj.ext = true ↔ fi.ext < fj.ext)) ∧
    (fi.ext = fj.ext →
      lessFuncGenerator api lower files i j = some (numericLess fi.name fj.name)) := by
  rw [lessFuncGenerator_of_reachesFlag_v lower hv, onFiles_of_get hi hj, less_v_eq]
  refine ⟨fun hne => ?_, fun heq => ?_⟩
  · simp [hdi, hdj, hei, hej, hai, haj, hne, strLess_iff]
  · simp [hdi, hdj, hei, hej, hai, haj, heq]

/-- C14 on `b.c` and `a.h`. -/
theorem natural_ext_first_witness :
    lessFuncGenerator (exampleApi 16) Char.toLower
        [mkFile "b" ".c" "", mkFile "a" ".h" ""] 0 1 = some (strLess ".c" ".h") ∧
      (strLess ".c" ".h" = true ↔ ".c" < ".h") :=
  (natural_ext_first (exampleApi 16) Char.toLower
    [mkFile "b" ".c" "", mkFile "a" ".h" ""] 0 1 (mkFile "b" ".c" "") (mkFile "a" ".h" "")
    (by decide) (by decide) (by decide) (by decide) (by decide) (by decide) (by decide)
    (by decide) (by decide)).1 (by decide)

theorem digitsValue_eq_ofDigits (ds : List Char) :
    digitsValue ds = Nat.ofDigits 10 (ds.reverse.map fun c => c.toNat - 48) := by
  unfold digitsValue
  rw [Nat.ofDigits_eq_foldr, List.foldr_map, List.foldr_reverse]
  congr 1
  funext acc c
  simp [add_comm]

theorem Atoi_of_digits (ds : List Char) (hds : ∀ c ∈ ds, c.isDigit = true) :
    Atoi ⟨ds⟩ =
      if ds ≠ [] ∧ digitsValue ds < 2 ^ 63 then some (digitsValue ds : Int) else none := by
  have hminus : ∀ r : List Char, ds ≠ '-' :: r := by
    rintro r rfl
    exact absurd (hds '-' (List.mem_cons_self _ _)) (by decide)
  have hplus : ∀ r : List Char, ds ≠ '+' :: r := by
    rintro r rfl
    exact absurd (hds '+' (List.mem_cons_self _ _)) (by decide)
  have hall : ds.all Char.isDigit = true := List.all_eq_true.2 hds
  unfold Atoi
  simp only []
  split
  · rename_i h
    have hnil : ds = [] := by simpa [hall] using h
    simp [hnil]
  · rename_i h
    have hnil : ds ≠ [] := fun e => h (Or.inl e)
    simp [hnil, intSize]

/-- The digit extraction of the `Flag_v` closure, in closed form. -/
theorem Atoi_int_re_ReplaceAll (name : String) :
    Atoi (int_re_ReplaceAll name) =
      if (∃ c ∈ name.data, c.isDigit = true) ∧ digitRunValue name < 2 ^ 63 then
        some (digitRunValue name : Int)
      else none := by
  unfold int_re_ReplaceAll
  rw [Atoi_of_digits _ (fun c hc => (List.mem_filter.1 hc).2)]
  have hne : name.data.filter Char.isDigit ≠ [] ↔ ∃ c ∈ name.data, c.isDigit = true := by
    rw [Ne, List.filter_eq_nil_iff]
    push_neg
    rfl
  have hval : digitsValue (name.data.filter Char.isDigit) = digitRunValue name :=
    digitsValue_eq_ofDigits _
  simp only [hne, hval]


/-- The `Flag_v` closure on two plain records without arrow and with the same ext. -/
theorem less_v_plain_same_ext (fi fj : file)
    (hdi : fi.indicator ≠ "/") (hdj : fj.indicator ≠ "/")
    (hei : fi.indicator ≠ "*") (hej : fj.indicator ≠ "*")
    (_hai : Contains fi.ext "->" = false) (haj : Contains fj.ext "->" = false)
    (hext : fi.ext = fj.ext) : less_v fi fj = numericLess fi.name fj.name := by
  rw [less_v_eq]
  simp [hdi, hdj, hei, hej, haj, hext]

/-- C15: in `Flag_v` mode, for two plain records (no directory, no executable, no `->`)
with equal ext, whose names both pass the digit extraction (values `vi`, `vj`) and have
equal skeletons, the comparator is `vi < vj`, where the values are the digit runs read as
numbers.  The plain files `file10`, `file2`, `file1` are ordered `file1`, `file2`,
`file10`, that is positions 2, 1, 0. -/
theorem natural_numeric_order :
    (∀ (api : Api) (lower : Char → Char) (files : List file) (i j : Nat) (fi fj : file)
      (vi vj : Int),
      reachesFlag_v api → files[i]? = some fi → files[j]? = some fj →
      fi.indicator ≠ "/" → fj.indicator ≠ "/" → fi.indicator ≠ "*" → fj.indicator ≠ "*" →
      Contains fi.ext "->" = false → Contains fj.ext "->" = false → fi.ext = fj.ext →
      Atoi (int_re_ReplaceAll fi.name) = some vi →
      Atoi (int_re_ReplaceAll fj.name) = some vj →
      str_re_ReplaceAll fi.name = str_re_ReplaceAll fj.name →
      lessFuncGenerator api lower files i j = some (decide (vi < vj)) ∧
        vi = (digitRunValue fi.name : Int) ∧ vj = (digitRunValue fj.name : Int)) ∧
    OrderedAs (lessFuncGenerator (exampleApi 16) Char.toLower
      [mkFile "file10" ".txt" "", mkFile "file2" ".txt" "", mkFile "file1" ".txt" ""])
      [2, 1, 0] := by
  refine ⟨fun api lower files i j fi fj vi vj hv hi hj hdi hdj hei hej hai haj hext hvi hvj
    hsk => ⟨?_, ?_, ?_⟩, by decide⟩
  · rw [lessFuncGenerator_of_reachesFlag_v lower hv, onFiles_of_get hi hj,
      less_v_plain_same_ext fi fj hdi hdj hei hej hai haj hext]
    unfold numericLess
    simp [hvi, hvj, hsk]
  · rw [Atoi_int_re_ReplaceAll] at hvi
    split at hvi
    · exact (Option.some.inj hvi).symm
    · exact absurd hvi (by simp)
  · rw [Atoi_int_re_ReplaceAll] at hvj
    split at hvj
    · exact (Option.some.inj hvj).symm
    · exact absurd hvj (by simp)

/-- C15 on `file2.txt` and `file10.txt`. -/
theorem natural_numeric_order_witness :
    lessFuncGenerator (exampleApi 16) Char.toLower
        [mkFile "file10" ".txt" "", mkFile "file2" ".txt" "", mkFile "file1" ".txt" ""] 1 0 =
        some (decide ((2 : Int) < 10)) ∧
      (2 : Int) = (digitRunValue "file2" : Int) ∧ (10 : Int) = (digitRunValue "file10" : Int) :=
  natural_numeric_order.1 (exampleApi 16) Char.toLower
    [mkFile "file10" ".txt" "", mkFile "file2" ".txt" "", mkFile "file1" ".txt" ""] 1 0
    (mkFile "file2" ".txt" "") (mkFile "file10" ".txt" "") 2 10
    (by decide) (by decide) (by decide) (by decide) (by decide) (by decide) (by decide)
    (by decide) (by decide) (by decide) (by decide) (by decide) (by decide)

/-- C16: in `Flag_v` mode, for two plain records with equal ext, when the digit extraction
fails for either name or the skeletons differ, the comparator is `name_i < name_j`; on
every pair of positions of the list the comparator returns a boolean; `readme` precedes
`readme2`. -/
theorem natural_fallback_by_name :
    (∀ (api : Api) (lower : Char → Char) (files : List file) (i j : Nat) (fi fj : file),
      reachesFlag_v api → files[i]? = some fi → files[j]? = some fj →
      fi.indicator ≠ "/" → fj.indicator ≠ "/" → fi.indicator ≠ "*" → fj.indicator ≠ "*" →
      Contains fi.ext "->" = false → Contains fj.ext "->" = false → fi.ext = fj.ext →
      (Atoi (int_re_ReplaceAll fi.name) = none ∨ Atoi (int_re_ReplaceAll fj.name) = none ∨
        str_re_ReplaceAll fi.name ≠ str_re_ReplaceAll fj.name) →
      lessFuncGenerator api lower files i j = some (strLess fi.name fj.name) ∧
        (strLess fi.name fj.name = true ↔ fi.name < fj.name)) ∧
    (∀ (api : Api) (lower : Char → Char) (files : List file) (i j : Nat),
      reachesFlag_v api → i < files.length → j < files.length →
      ∃ b, lessFuncGenerator api lower files i j = some b) ∧
    OrderedAs (lessFuncGenerator (exampleApi 16) Char.toLower
      [mkFile "readme" "" "", mkFile "readme2" "" ""]) [0, 1] := by
  refine ⟨fun api lower files i j fi fj hv hi hj hdi hdj hei hej hai haj hext hfall =>
    ⟨?_, strLess_iff _ _⟩, fun api lower files i j hv hi hj => ?_, by decide⟩
  · rw [lessFuncGenerator_of_reachesFlag_v lower hv, onFiles_of_get hi hj,
      less_v_plain_same_ext fi fj hdi hdj hei hej hai haj hext]
    unfold numericLess
    rcases hfall with h | h | h
    · simp [h]
    · rw [h]
      cases Atoi (int_re_ReplaceAll fi.name) <;> rfl
    · cases Atoi (int_re_ReplaceAll fi.name) <;> cases Atoi (int_re_ReplaceAll fj.name) <;>
        simp [h]
  · rw [lessFuncGenerator_of_reachesFlag_v lower hv]
    exact ⟨_, onFiles_eq_some hi hj⟩

/-- C16 on `readme` and `readme2`. -/
theorem natural_fallback_by_name_witness :
    lessFuncGenerator (exampleApi 16) Char.toLower
        [mkFile "readme" "" "", mkFile "readme2" "" ""] 0 1 =
        some (strLess "readme" "readme2") ∧
      (strLess "readme" "readme2" = true ↔ "readme" < "readme2") :=
  natural_fallback_by_name.1 (exampleApi 16) Char.toLower
    [mkFile "readme" "" "", mkFile "readme2" "" ""] 0 1 (mkFile "readme" "" "")
    (mkFile "readme2" "" "") (by decide) (by decide) (by decide) (by decide) (by decide)
    (by decide) (by decide) (by decide) (by decide) (by decide) (Or.inl (by decide))

/-- C17: the digit extraction (`int_re.ReplaceAll` followed by `strconv.Atoi`) succeeds for
a name exactly when the name holds a digit `0`-`9` and the base-10 value of its digits,
in order, is at most `2^63 - 1`; on success the value is that number (leading zeros
count for nothing), and it fails exactly when there is no digit or the value is `2^63` or
more. -/
theorem digit_extraction_succeeds_iff :
    (∀ name : String,
      ((∃ v, Atoi (int_re_ReplaceAll name) = some v) ↔
        (∃ c ∈ name.data, c.isDigit = true) ∧ digitRunValue name ≤ 2 ^ 63 - 1) ∧
      (∀ v, Atoi (int_re_ReplaceAll name) = some v → v = (digitRunValue name : Int)) ∧
      (Atoi (int_re_ReplaceAll name) = none ↔
        (∀ c ∈ name.data, c.isDigit = false) ∨ 2 ^ 63 ≤ digitRunValue name)) ∧
    (int_re_ReplaceAll "v1.02-rc3" = "1023" ∧
      Atoi (int_re_ReplaceAll "v1.02-rc3") = some 1023 ∧
      Atoi (int_re_ReplaceAll "file007") = some 7 ∧
      Atoi (int_re_ReplaceAll "readme") = none ∧
      Atoi (int_re_ReplaceAll "-5") = some 5 ∧
      Atoi (int_re_ReplaceAll "a9223372036854775807") = some 9223372036854775807 ∧
      Atoi (int_re_ReplaceAll "a9223372036854775808") = none) := by
  refine ⟨fun name => ?_, by decide⟩
  rw [Atoi_int_re_ReplaceAll]
  have hle : digitRunValue name ≤ 2 ^ 63 - 1 ↔ digitRunValue name < 2 ^ 63 := by
    constructor <;> intro h <;> omega
  by_cases hc : (∃ c ∈ name.data, c.isDigit = true) ∧ digitRunValue name < 2 ^ 63
  · rw [if_pos hc]
    refine ⟨⟨fun _ => ⟨hc.1, hle.2 hc.2⟩, fun _ => ⟨_, rfl⟩⟩,
      fun v hv => (Option.some.inj hv).symm, ?_⟩
    constructor
    · intro h
      exact absurd h (by simp)
    · rintro (h | h)
      · obtain ⟨c, hmem, hd⟩ := hc.1
        rw [h c hmem] at hd
        exact absurd hd (by simp)
      · omega
  · rw [if_neg hc]
    refine ⟨⟨fun ⟨v, hv⟩ => absurd hv (by simp), fun h => absurd ⟨h.1, hle.1 h.2⟩ hc⟩,
      fun v hv => absurd hv (by simp), ?_⟩
    constructor
    · intro _
      by_cases hd : ∃ c ∈ name.data, c.isDigit = true
      · right
        have : ¬ digitRunValue name < 2 ^ 63 := fun h => hc ⟨hd, h⟩
        omega
      · left
        intro c hmem
        by_contra hcd
        exact hd ⟨c, hmem, by simpa using hcd⟩
    · intro _
      rfl

/-- C17 on the name `file007`. -/
theorem digit_extraction_succeeds_iff_witness :
    (7 : Int) = (digitRunValue "file007" : Int) :=
  (digit_extraction_succeeds_iff.1 "file007").2.1 7 (by decide)

/-- The `Flag_v` closure on two directories. -/
theorem less_v_dirs (fi fj : file) (hdi : fi.indicator = "/") (hdj : fj.indicator = "/") :
    less_v fi fj =
      if fi.name = fj.name then strLess fi.ext fj.ext else numericLess fi.name fj.name := by
  rw [less_v_eq]
  simp [hdi, hdj]

/-- C18: in `Flag_v` mode, for two directories: with equal names the comparator is
`ext_i < ext_j`; with different names it is the numeric-aware comparison of the names and
is the same for every pair of directories with these names, whatever their exts; and when
the two exts are equal and hold no `->`, the result is the one the comparator gives for
two plain files (empty indicator) with the same names and that ext. -/
theorem natural_directories_like_plain (api : Api) (lower : Char → Char)
    (files : List file) (i j : Nat) (fi fj : file) (hv : reachesFlag_v api)
    (hi : files[i]? = some fi) (hj : files[j]? = some fj)
    (hdi : fi.indicator = "/") (hdj : fj.indicator = "/") :
    (fi.name = fj.name →
      lessFuncGenerator api lower files i j = some (strLess fi.ext fj.ext) ∧
        (strLess fi.ext fj.ext = true ↔ fi.ext < fj.ext)) ∧
    (fi.name ≠ fj.name →
      lessFuncGenerator api lower files i j = some (numericLess fi.name fj.name) ∧
      ∀ (files' : List file) (i' j' : Nat) (gi gj : file),
        files'[i']? = some gi → files'[j']? = some gj →
        gi.indicator = "/" → gj.indicator = "/" → gi.name = fi.name → gj.name = fj.name →
        lessFuncGenerator api lower files' i' j' = lessFuncGenerator api lower files i j) ∧
    (fi.ext = fj.ext → Contains fi.ext "->" = false →
      ∀ (files' : List file) (i' j' : Nat) (pi pj : file),
        files'[i']? = some pi → files'[j']? = some pj →
        pi.indicator = "" → pj.indicator = "" →
        pi.name = fi.name → pj.name = fj.name → pi.ext = fi.ext → pj.ext = fi.ext →
        lessFuncGenerator api lower files' i' j' = lessFuncGenerator api lower files i j) := by
  rw [lessFuncGenerator_of_reachesFlag_v lower hv, onFiles_of_get hi hj,
    less_v_dirs fi fj hdi hdj]
  refine ⟨fun hn => ?_, fun hn => ⟨?_, ?_⟩, fun hext harrow => ?_⟩
  · rw [if_pos hn]
    exact ⟨rfl, strLess_iff _ _⟩
  · rw [if_neg hn]
  · intro files' i' j' gi gj hi' hj' hgi hgj hni hnj
    rw [onFiles_of_get hi' hj', less_v_dirs gi gj hgi hgj, hni, hnj, if_neg hn, if_neg hn]
  · intro files' i' j' pi pj hi' hj' hpi hpj hni hnj hei hej
    have e1 : pi.indicator ≠ "/" := by rw [hpi]; decide
    have e2 : pj.indicator ≠ "/" := by rw [hpj]; decide
    have e3 : pi.indicator ≠ "*" := by rw [hpi]; decide
    have e4 : pj.indicator ≠ "*" := by rw [hpj]; decide
    rw [onFiles_of_get hi' hj', less_v_plain_same_ext pi pj e1 e2 e3 e4
      (by rw [hei]; exact harrow) (by rw [hej]; exact harrow) (by rw [hei, hej]), hni, hnj]
    by_cases hn : fi.name = fj.name
    · rw [if_pos hn, hn, hext, numericLess_irrefl, strLess_irrefl]
    · rw [if_neg hn]

/-- C18 on the directories `v10.d` and `v9.d` and the plain files of the same names. -/
theorem natural_directories_like_plain_witness :
    lessFuncGenerator (exampleApi 16) Char.toLower
        [mkFile "v10" ".d" "", mkFile "v9" ".d" ""] 0 1 =
      lessFuncGenerator (exampleApi 16) Char.toLower
        [mkFile "v10" ".d" "/", mkFile "v9" ".d" "/"] 0 1 :=
  (natural_directories_like_plain (exampleApi 16) Char.toLower
    [mkFile "v10" ".d" "/", mkFile "v9" ".d" "/"] 0 1 (mkFile "v10" ".d" "/")
    (mkFile "v9" ".d" "/") (by decide) (by decide) (by decide) (by decide)
    (by decide)).2.2 (by decide) (by decide) [mkFile "v10" ".d" "", mkFile "v9" ".d" ""] 0 1
    (mkFile "v10" ".d" "") (mkFile "v9" ".d" "") (by decide) (by decide) (by decide)
    (by decide) (by decide) (by decide) (by decide) (by decide)

/-! ## `getIndicator` -/

/-- C19 as stated fails: the mode `0o010` (execute permission for the group only) has
none of the directory, named-pipe, symlink and socket bits and has an execute bit, yet
`getIndicator` returns the empty string; so does the mode `0o001`. -/
theorem getIndicator_group_execute :
    (0o010 &&& ModeDir = 0 ∧ 0o010 &&& ModeNamedPipe = 0 ∧ 0o010 &&& ModeSymlink = 0 ∧
      0o010 &&& ModeSocket = 0) ∧
    0o010 &&& 0o111 ≠ 0 ∧ getIndicator 0o010 = "" ∧ getIndicator 0o001 = "" := by
  decide

/-- Apart from bit 6 (`0o100`), the literal `1000000` has the bits 9, 14, 16, 17, 18, 19;
on a mode without them, masking with the literal tests the owner execute bit. -/
theorem land_literal (m : Nat) (h : m &&& 999936 = 0) : m &&& 1000000 = m &&& 0o100 := by
  apply Nat.eq_of_testBit_eq
  intro k
  have hk := congrArg (fun x => Nat.testBit x k) h
  simp only [Nat.testBit_land, Nat.zero_testBit] at hk ⊢
  by_cases hm : m.testBit k = true
  · rw [hm] at hk ⊢
    simp only [Bool.true_and] at hk ⊢
    by_cases hlt : k < 20
    · interval_cases k <;> first | rfl | (exact absurd hk (by decide))
    · have h1 : (1000000 : Nat).testBit k = false :=
        Nat.testBit_lt_two_pow (lt_of_lt_of_le (by norm_num) (Nat.pow_le_pow_right (by norm_num) (Nat.le_of_not_lt hlt)))
      have h2 : (0o100 : Nat).testBit k = false :=
        Nat.testBit_lt_two_pow (lt_of_lt_of_le (by norm_num) (Nat.pow_le_pow_right (by norm_num) (Nat.le_of_not_lt hlt)))
      rw [h1, h2]
  · simp [hm]

/-- C19 (as amended): for every mode with none of the directory, named-pipe, symlink and
socket bits set, and with none of the other bits of the literal `1000000` set (bits 9,
14, 16, 17, 18 and 19), `getIndicator` returns `*` exactly when the owner execute bit
`0o100` is set, and the empty string otherwise. -/
theorem getIndicator_owner_execute (modebit : Nat)
    (hdir : modebit &&& ModeDir = 0) (hpipe : modebit &&& ModeNamedPipe = 0)
    (hlink : modebit &&& ModeSymlink = 0) (hsock : modebit &&& ModeSocket = 0)
    (hperm : modebit &&& (1000000 - 0o100) = 0) :
    (getIndicator modebit = "*" ↔ modebit &&& 0o100 ≠ 0) ∧
    (modebit &&& 0o100 = 0 → getIndicator modebit = "") := by
  have hperm' : modebit &&& 999936 = 0 := hperm
  unfold getIndicator
  simp only [hdir, hpipe, hlink, hsock, land_literal modebit hperm', gt_iff_lt,
    lt_self_iff_false, if_false]
  by_cases h : modebit &&& 0o100 = 0
  · simp [h]
  · simp [h, Nat.pos_of_ne_zero h]

/-- The amended C19 on the mode `0o754`. -/
theorem getIndicator_owner_execute_witness :
    (getIndicator 0o754 = "*" ↔ 0o754 &&& 0o100 ≠ 0) ∧
    (0o754 &&& 0o100 = 0 → getIndicator 0o754 = "") :=
  getIndicator_owner_execute 0o754 (by decide) (by decide) (by decide) (by decide)
    (by decide)

/-! ## `getSizeInFormate` -/

theorem wrapInt64_of_range (x : Int) (h0 : 0 ≤ x) (h1 : x < 2 ^ 63) : wrapInt64 x = x := by
  unfold wrapInt64
  rw [Int.emod_eq_of_lt (by omega) (by omega)]
  omega

/-- The loop of `getSizeInFormate` started in the state it has after `k` rounds on the
size `B`: it ends, and the final `div` and `exp` bracket `B`. -/
theorem unitLoop_from (B : Nat) (hB : B < 2 ^ 63) :
    ∀ (fuel k : Nat), 7 ≤ fuel + k → 1024 ^ (k + 1) ≤ B →
      ∃ e, unitLoop fuel ((B / 1024 ^ (k + 1) : Nat) : Int) ((1024 ^ (k + 1) : Nat) : Int) k =
          some (((1024 ^ (e + 1) : Nat) : Int), e) ∧
        e ≤ 5 ∧ 1024 ^ (e + 1) ≤ B ∧ B < 1024 ^ (e + 2) := by
  intro fuel
  induction fuel with
  | zero =>
    intro k hk hle
    exfalso
    have h7 : (1024 : Nat) ^ 7 ≤ 1024 ^ (k + 1) :=
      Nat.pow_le_pow_right (by norm_num) (by omega)
    have : (1024 : Nat) ^ 7 = 2 ^ 70 := by norm_num
    have : (2 : Nat) ^ 63 < 2 ^ 70 := by norm_num
    omega
  | succ fuel ih =>
    intro k hk hle
    have hk5 : k ≤ 5 := by
      by_contra hcon
      have h7 : (1024 : Nat) ^ 7 ≤ 1024 ^ (k + 1) :=
        Nat.pow_le_pow_right (by norm_num) (by omega)
      have : (1024 : Nat) ^ 7 = 2 ^ 70 := by norm_num
      have : (2 : Nat) ^ 63 < 2 ^ 70 := by norm_num
      omega
    unfold unitLoop
    by_cases hn : ((B / 1024 ^ (k + 1) : Nat) : Int) ≥ 1024
    · rw [if_pos hn]
      have hn' : 1024 ≤ B / 1024 ^ (k + 1) := by exact_mod_cast hn
      have hle' : 1024 ^ (k + 1 + 1) ≤ B := by
        have := (Nat.le_div_iff_mul_le (Nat.pos_pow_of_pos _ (by norm_num))).1 hn'
        rw [pow_succ]
        linarith
      have hdiv : Int.tdiv ((B / 1024 ^ (k + 1) : Nat) : Int) 1024 =
          ((B / 1024 ^ (k + 1 + 1) : Nat) : Int) := by
        rw [Int.tdiv_eq_ediv (by positivity) (by norm_num), pow_succ 1024 (k + 1),
          ← Nat.div_div_eq_div_mul]
        norm_cast
      have hpow : ((1024 ^ (k + 1) : Nat) : Int) * 1024 = ((1024 ^ (k + 1 + 1) : Nat) : Int) := by
        rw [pow_succ 1024 (k + 1)]
        push_cast
        ring
      have hwrap : wrapInt64 (((1024 ^ (k + 1) : Nat) : Int) * 1024) =
          ((1024 ^ (k + 1 + 1) : Nat) : Int) := by
        rw [hpow]
        apply wrapInt64_of_range
        · positivity
        · have : 1024 ^ (k + 1 + 1) < 2 ^ 63 := lt_of_le_of_lt hle' hB
          exact_mod_cast this
      rw [hdiv, hwrap]
      exact ih (k + 1) (by omega) hle'
    · rw [if_neg hn]
      refine ⟨k, rfl, hk5, hle, ?_⟩
      have hn' : B / 1024 ^ (k + 1) < 1024 := by
        have := not_le.1 hn
        exact_mod_cast this
      have := (Nat.div_lt_iff_lt_mul (Nat.pos_pow_of_pos _ (by norm_num))).1 hn'
      rw [pow_succ 1024 (k + 1)]
      linarith


theorem unitLoop_start (b : Int) (h0 : 1024 ≤ b) (h1 : b < 2 ^ 63) :
    ∃ e : Nat, (∀ fuel, 7 ≤ fuel →
        unitLoop fuel (Int.tdiv b 1024) 1024 0 = some ((1024 : Int) ^ (e + 1), e)) ∧
      e ≤ 5 ∧ (1024 : Int) ^ (e + 1) ≤ b ∧ b < 1024 * (1024 : Int) ^ (e + 1) := by
  obtain ⟨B, rfl⟩ := Int.eq_ofNat_of_zero_le (by omega : (0 : Int) ≤ b)
  have hB : B < 2 ^ 63 := by omega
  have hle : 1024 ^ (0 + 1) ≤ B := by
    have : (1024 : Nat) ≤ B := by omega
    simpa using this
  have hstart : Int.tdiv (B : Int) 1024 = ((B / 1024 ^ (0 + 1) : Nat) : Int) := by
    rw [Int.tdiv_eq_ediv (by positivity) (by norm_num)]
    simp
  have hkey : ∀ fuel, unitLoop fuel (Int.tdiv (B : Int) 1024) 1024 0 =
      unitLoop fuel ((B / 1024 ^ (0 + 1) : Nat) : Int) ((1024 ^ (0 + 1) : Nat) : Int) 0 := by
    intro fuel
    rw [hstart]
    norm_num
  obtain ⟨e, -, he5, hlo, hhi⟩ := unitLoop_from B hB 7 0 (by omega) hle
  refine ⟨e, fun fuel hfuel => ?_, he5, by exact_mod_cast hlo, ?_⟩
  · obtain ⟨e', hrun, -, hlo', hhi'⟩ := unitLoop_from B hB fuel 0 (by omega) hle
    have hee : e' = e := by
      by_contra hne
      rcases Nat.lt_or_gt_of_ne hne with hlt | hgt
      · have : (1024 : Nat) ^ (e' + 2) ≤ 1024 ^ (e + 1) :=
          Nat.pow_le_pow_right (by norm_num) (by omega)
        omega
      · have : (1024 : Nat) ^ (e + 2) ≤ 1024 ^ (e' + 1) :=
          Nat.pow_le_pow_right (by norm_num) (by omega)
        omega
    subst hee
    rw [hkey, hrun]
    push_cast
    rfl
  · have : B < 1024 * 1024 ^ (e + 1) := by
      rw [← pow_succ']
      exact hhi
    exact_mod_cast this

/-- C20: with the human-readable flag set, for every `int64` `b ≥ 1024` the loop ends (with
any fuel from 7 on) with `exp ≤ 5`, so that `"KMGTPE"[exp]` exists; `div = 1024^(exp+1)`
is below `2^63`, no multiplication wraps, and `div ≤ b < 1024 * div`.  When the flag is
not set or `b < 1024`, the result is the decimal text of `b`. -/
theorem getSizeInFormate_units (api : Api) (b : Int) :
    ((api.FlagVector &&& api.Flag_h) ≠ 0 → 1024 ≤ b → b < 2 ^ 63 →
      ∃ (div : Int) (exp : Nat) (c : Char),
        (∀ fuel, 7 ≤ fuel → unitLoop fuel (Int.tdiv b 1024) 1024 0 = some (div, exp)) ∧
        exp ≤ 5 ∧ ("KMGTPE").data[exp]? = some c ∧
        div = 1024 ^ (exp + 1) ∧ div < 2 ^ 63 ∧ div ≤ b ∧ b < 1024 * div ∧
        getSizeInFormate api b = some (SizeText.scaled b div c)) ∧
    ((api.FlagVector &&& api.Flag_h) = 0 ∨ b < 1024 →
      getSizeInFormate api b = some (SizeText.decimal b)) := by
  constructor
  · intro hflag h0 h1
    obtain ⟨e, hrun, he5, hlo, hhi⟩ := unitLoop_start b h0 h1
    have hc : ∃ c, ("KMGTPE").data[e]? = some c := by
      interval_cases e <;> exact ⟨_, rfl⟩
    obtain ⟨c, hc⟩ := hc
    refine ⟨1024 ^ (e + 1), e, c, hrun, he5, hc, rfl, lt_of_le_of_lt hlo h1, hlo, hhi, ?_⟩
    unfold getSizeInFormate
    rw [if_neg hflag, if_neg (by omega), hrun 64 (by norm_num)]
    simp only [hc]
  · intro h
    unfold getSizeInFormate
    rcases h with h | h
    · rw [if_pos h]
    · by_cases hflag : (api.FlagVector &&& api.Flag_h) = 0
      · rw [if_pos hflag]
      · rw [if_neg hflag, if_pos h]

/-- C20 on the size 5000000 with the flag set, on 1023, and on 5000000 without the flag. -/
theorem getSizeInFormate_units_witness :
    (∃ (div : Int) (exp : Nat) (c : Char),
        (∀ fuel, 7 ≤ fuel →
          unitLoop fuel (Int.tdiv 5000000 1024) 1024 0 = some (div, exp)) ∧
        exp ≤ 5 ∧ ("KMGTPE").data[exp]? = some c ∧
        div = 1024 ^ (exp + 1) ∧ div < 2 ^ 63 ∧ div ≤ 5000000 ∧ 5000000 < 1024 * div ∧
        getSizeInFormate (exampleApi 32) 5000000 = some (SizeText.scaled 5000000 div c)) ∧
    getSizeInFormate (exampleApi 32) 1023 = some (SizeText.decimal 1023) ∧
    getSizeInFormate (exampleApi 0) 5000000 = some (SizeText.decimal 5000000) :=
  ⟨(getSizeInFormate_units (exampleApi 32) 5000000).1 (by decide) (by decide) (by decide),
   (getSizeInFormate_units (exampleApi 32) 1023).2 (Or.inr (by decide)),
   (getSizeInFormate_units (exampleApi 0) 5000000).2 (Or.inl (by decide))⟩

end LogoLs
